import Mathlib

/-!
Verification of the neural-network engine in `src/utils/neuralNetwork.ts`.

The engine is embedded shallowly:

* JavaScript numbers are modelled by an arbitrary linear ordered field `α`;
  the runtime's transcendental functions (`Math.exp`, `Math.tanh`) are
  abstracted as a `ScalarOps α` record, so every theorem below holds for any
  interpretation of those functions, in particular for the real ones.
* The TS string ids `"node-" ++ toString k` and `"conn-" ++ f ++ "-" ++ t`
  are modelled by the counter `k` (resp. the endpoint pair); the formatting
  maps are injective, so `find`-by-id behaves identically.
* The TS union type `'input' | 'hidden' | 'output'` is modelled by the
  inductive `NodeType`.
* In-place mutation of the `nodes` / `connections` arrays is modelled by
  state passing; the `forEach` loops that mutate the array they read from
  are modelled by the positional sequential updater `seqGo`.
* Fallible steps (the non-null assertions `this.nodes.find(...)!`) return
  `Option`; `none` models a thrown `TypeError`.
* `Math.random()` is modelled by explicit streams `rngB rngW : Nat → α`
  supplying the successive draws (biases are drawn node by node, then
  weights connection by connection, in creation order).
* Out-of-range array reads yield `undefined` in JS and hence `NaN` in
  arithmetic; a field `α` has no `NaN`, so the main model reads targets
  with `List.getD` (used only under in-range hypotheses), and a second,
  JS-faithful model of `backward` (prefix `js`) uses `Option α` scalars
  where `none` plays the role of `NaN`.
-/

/-- The three node kinds, the TS union type `'input' | 'hidden' | 'output'`. -/
inductive NodeType
  | input
  | hidden
  | output
deriving DecidableEq

/-- Embedding of the TS interface `NetworkNode`.  The TS object additionally
gains a dynamic `error` property during `backward` (written via
`(node as any).error`); it is modelled as a field whose initial value is
never read by the operations on well-formed networks. -/
structure NetworkNode (α : Type) where
  id : Nat
  x : α
  y : α
  layer : Nat
  activation : α
  bias : α
  type : NodeType
  error : α
deriving DecidableEq

/-- Embedding of the TS interface `NetworkConnection`; the string id
`conn-<from>-<to>` is modelled by the endpoint pair. -/
structure NetworkConnection (α : Type) where
  id : Nat × Nat
  fromNodeId : Nat
  toNodeId : Nat
  weight : α
  gradient : α
deriving DecidableEq

/-- Embedding of the TS interface `NetworkConfig`.  The activation selector
is kept as a string: the `switch` in `activate` has a default branch, so any
string is meaningful. -/
structure NetworkConfig (α : Type) where
  inputSize : Nat
  hiddenLayers : List Nat
  outputSize : Nat
  learningRate : α
  activationFunction : String

/-- The runtime's transcendental functions (`Math.exp` and `Math.tanh`),
abstracted so that the model stays executable over any field. -/
structure ScalarOps (α : Type) where
  exp : α → α
  tanh : α → α

section Model

variable {α : Type} [LinearOrderedField α]

/-- Embedding of `NeuralNetwork.activate`. -/
def activate (ops : ScalarOps α) (sel : String) (x : α) : α :=
  if sel = "sigmoid" then 1 / (1 + ops.exp (-x))
  else if sel = "relu" then max 0 x
  else if sel = "tanh" then ops.tanh x
  else 1 / (1 + ops.exp (-x))

/-- Embedding of `NeuralNetwork.activateDerivative`.  No transcendental
function occurs in any branch, so `ScalarOps` is not needed. -/
def activateDerivative (sel : String) (x : α) : α :=
  if sel = "sigmoid" then x * (1 - x)
  else if sel = "relu" then (if x > 0 then x else 0)
  else if sel = "tanh" then 1 - x * x
  else x * (1 - x)

/-- Accumulator of `calculateLoss`'s `reduce`: running index `i`, running
sum `s`.  A JS out-of-range read of `targets[i]` would be `NaN`; the `getD`
default is only ever exercised under the equal-length hypothesis. -/
def lossSumGo (targets : List α) : List α → Nat → α → α
  | [], _, s => s
  | p :: rest, i, s => lossSumGo targets rest (i + 1) (s + (p - targets.getD i 0) ^ 2)

/-- Embedding of `NeuralNetwork.calculateLoss`. -/
def calculateLoss (predictions targets : List α) : α :=
  lossSumGo targets predictions 0 0 / (predictions.length : α)

/-- The layer-width list `[inputSize, ...hiddenLayers, outputSize]`. -/
def layerSizes (cfg : NetworkConfig α) : List Nat :=
  cfg.inputSize :: (cfg.hiddenLayers ++ [cfg.outputSize])

/-- The `layerType` computation of `initializeNetwork`. -/
def layerTypeOf (total layerIndex : Nat) : NodeType :=
  if layerIndex = 0 then .input
  else if layerIndex = total - 1 then .output
  else .hidden

/-- Node allocation loop of `initializeNetwork`: one block of nodes per
layer, threading the `nodeId` counter. -/
def buildNodesGo (rngB : Nat → α) (total : Nat) :
    List Nat → Nat → Nat → List (NetworkNode α)
  | [], _, _ => []
  | size :: rest, layerIndex, nodeId =>
    ((List.range size).map (fun i =>
      { id := nodeId + i
        x := ((layerIndex * 200 + 100 : Nat) : α)
        y := ((i * 80 + 100 : Nat) : α)
        layer := layerIndex
        activation := 0
        bias := rngB (nodeId + i) * 2 - 1
        type := layerTypeOf total layerIndex
        error := 0 }))
      ++ buildNodesGo rngB total rest (layerIndex + 1) (nodeId + size)

/-- All nodes of `initializeNetwork`, in creation order. -/
def buildNodes (rngB : Nat → α) (sizes : List Nat) : List (NetworkNode α) :=
  buildNodesGo rngB sizes.length sizes 0 0

/-- The filter `this.nodes.filter(n => n.layer === layer)`. -/
def nodesAtLayer (ns : List (NetworkNode α)) (l : Nat) : List (NetworkNode α) :=
  ns.filter (fun n => n.layer == l)

/-- Connection creation order of `initializeNetwork`: for every adjacent
layer pair, the cross product of the two layers' nodes. -/
def connPairs (ns : List (NetworkNode α)) (numLayers : Nat) :
    List (NetworkNode α × NetworkNode α) :=
  (List.range (numLayers - 1)).flatMap (fun l =>
    (nodesAtLayer ns l).flatMap (fun f =>
      (nodesAtLayer ns (l + 1)).map (fun t => (f, t))))

/-- Embedding of `NeuralNetwork.initializeNetwork` (also run by the
constructor).  The j-th created connection draws the j-th value of the
weight stream `rngW`. -/
def initializeNetwork (cfg : NetworkConfig α) (rngB rngW : Nat → α) :
    List (NetworkNode α) × List (NetworkConnection α) :=
  let sizes := layerSizes cfg
  let ns := buildNodes rngB sizes
  let cs := (connPairs ns sizes.length).enum.map (fun jc =>
    { id := (jc.2.1.id, jc.2.2.id)
      fromNodeId := jc.2.1.id
      toNodeId := jc.2.2.id
      weight := rngW jc.1 * 2 - 1
      gradient := 0 })
  (ns, cs)

/-- The lookup `this.nodes.find(n => n.id === nid)`. -/
def findNode? (ns : List (NetworkNode α)) (nid : Nat) : Option (NetworkNode α) :=
  ns.find? (fun n => n.id == nid)

/-- The bound `Math.max(...this.nodes.map(n => n.layer))` of the layer
loops.  JS yields `-Infinity` on an empty array, which makes both loops
empty; the `0` seed has the same effect. -/
def maxLayer (ns : List (NetworkNode α)) : Nat :=
  ns.foldr (fun n m => max n.layer m) 0

/-- Input-assignment loop of `forward`: the i-th input-typed node (in array
order) receives `inputs[i] || 0`, i.e. `0` when `inputs` is too short. -/
def setInputsGo (inputs : List α) : List (NetworkNode α) → Nat → List (NetworkNode α)
  | [], _ => []
  | n :: rest, i =>
    if n.type = .input then
      { n with activation := inputs.getD i 0 } :: setInputsGo inputs rest (i + 1)
    else n :: setInputsGo inputs rest i

/-- All input assignments of `forward` (each update touches only the node
itself, so the `forEach` is a plain traversal). -/
def setInputs (ns : List (NetworkNode α)) (inputs : List α) : List (NetworkNode α) :=
  setInputsGo inputs ns 0

/-- The filter `this.connections.filter(c => c.toNodeId === nid)`. -/
def incomingOf (cs : List (NetworkConnection α)) (nid : Nat) : List (NetworkConnection α) :=
  cs.filter (fun c => c.toNodeId == nid)

/-- The filter `this.connections.filter(c => c.fromNodeId === nid)`. -/
def outgoingOf (cs : List (NetworkConnection α)) (nid : Nat) : List (NetworkConnection α) :=
  cs.filter (fun c => c.fromNodeId == nid)

/-- The `sum += fromNode.activation * conn.weight` accumulation of
`forward`; `none` models the crash of `this.nodes.find(...)!` when the
source id is absent. -/
def sumIncoming (ns : List (NetworkNode α)) :
    List (NetworkConnection α) → α → Option α
  | [], s => some s
  | c :: rest, s =>
    match findNode? ns c.fromNodeId with
    | none => none
    | some f => sumIncoming ns rest (s + f.activation * c.weight)

/-- The pre-activation sum of one node in `forward`: bias plus the weighted
incoming activations, read from the current state `ns`. -/
def nodeSum (ns : List (NetworkNode α)) (cs : List (NetworkConnection α))
    (n : NetworkNode α) : Option α :=
  sumIncoming ns (incomingOf cs n.id) n.bias

/-- Sequential in-place `forEach` over array positions: processes positions
`i, i+1, ...` (with `fuel` bounding the count), updating each element from
the then-current whole state, exactly like the TS loops that mutate
`this.nodes` while reading it. -/
def seqGo {β : Type} (upd : List β → β → Option β) :
    Nat → Nat → List β → Option (List β)
  | 0, _, st => some st
  | fuel + 1, i, st =>
    match st[i]? with
    | none => some st
    | some b =>
      match upd st b with
      | none => none
      | some b2 => seqGo upd fuel (i + 1) (st.set i b2)

/-- One full sequential pass over the array. -/
def seqUpdate {β : Type} (upd : List β → β → Option β) (st : List β) : Option (List β) :=
  seqGo upd st.length 0 st

/-- Per-node body of the `forward` layer loop.  The TS code first filters
the layer's nodes and then mutates them through the shared array; since the
updates never change `layer`, iterating all positions and skipping
non-matching ones is the same traversal. -/
def fwdUpd (ops : ScalarOps α) (sel : String) (cs : List (NetworkConnection α)) (l : Nat)
    (st : List (NetworkNode α)) (n : NetworkNode α) : Option (NetworkNode α) :=
  if n.layer = l then
    (nodeSum st cs n).map (fun s => { n with activation := activate ops sel s })
  else some n

/-- The ascending layer loop of `forward`: processes layers `1, ..., k`. -/
def fwdLayers (ops : ScalarOps α) (sel : String) (cs : List (NetworkConnection α)) :
    Nat → List (NetworkNode α) → Option (List (NetworkNode α))
  | 0, st => some st
  | k + 1, st =>
    match fwdLayers ops sel cs k st with
    | none => none
    | some st2 => seqUpdate (fwdUpd ops sel cs (k + 1)) st2

/-- The return value of `forward`: activations of the output-typed nodes in
array order. -/
def outputsOf (ns : List (NetworkNode α)) : List α :=
  (ns.filter (fun n => n.type == NodeType.output)).map (fun n => n.activation)

/-- Embedding of `NeuralNetwork.forward`. -/
def forward (ops : ScalarOps α) (cfg : NetworkConfig α) (ns : List (NetworkNode α))
    (cs : List (NetworkConnection α)) (inputs : List α) :
    Option (List (NetworkNode α) × List α) :=
  let st0 := setInputs ns inputs
  match fwdLayers ops cfg.activationFunction cs (maxLayer st0) st0 with
  | none => none
  | some st => some (st, outputsOf st)

/-- Output-layer error of `backward` for the output node of index `i`:
`(targets[i] - activation) * activateDerivative(activation)`.  A JS
out-of-range read would inject `NaN` here; that behaviour is modelled
separately by `jsBackward`. -/
def outErrOf (sel : String) (targets : List α) (i : Nat) (n : NetworkNode α) : α :=
  (targets.getD i 0 - n.activation) * activateDerivative sel n.activation

/-- Output-error loop of `backward`: the i-th output-typed node (in array
order) receives `outErrOf i` (each update touches only the node itself). -/
def setOutputErrorsGo (sel : String) (targets : List α) :
    List (NetworkNode α) → Nat → List (NetworkNode α)
  | [], _ => []
  | n :: rest, i =>
    if n.type = .output then
      { n with error := outErrOf sel targets i n } :: setOutputErrorsGo sel targets rest (i + 1)
    else n :: setOutputErrorsGo sel targets rest i

/-- All output-error assignments of `backward`. -/
def setOutputErrors (sel : String) (targets : List α) (ns : List (NetworkNode α)) :
    List (NetworkNode α) :=
  setOutputErrorsGo sel targets ns 0

/-- The `errorSum += toNode.error * conn.weight` accumulation of
`backward`. -/
def sumOutgoing (ns : List (NetworkNode α)) :
    List (NetworkConnection α) → α → Option α
  | [], s => some s
  | c :: rest, s =>
    match findNode? ns c.toNodeId with
    | none => none
    | some t => sumOutgoing ns rest (s + t.error * c.weight)

/-- The backpropagated error sum of one node: over its outgoing
connections, destination error times connection weight. -/
def errorSum (ns : List (NetworkNode α)) (cs : List (NetworkConnection α))
    (n : NetworkNode α) : Option α :=
  sumOutgoing ns (outgoingOf cs n.id) 0

/-- Per-node body of the `backward` hidden-layer loop; input nodes are
skipped (`if (node.type === 'input') return;`). -/
def bwdUpd (sel : String) (cs : List (NetworkConnection α)) (l : Nat)
    (st : List (NetworkNode α)) (n : NetworkNode α) : Option (NetworkNode α) :=
  if n.layer = l then
    if n.type = .input then some n
    else (errorSum st cs n).map
      (fun s => { n with error := s * activateDerivative sel n.activation })
  else some n

/-- The descending layer loop of `backward`: `bwdLayers k` processes layers
`k-1, k-2, ..., 0` in that order. -/
def bwdLayers (sel : String) (cs : List (NetworkConnection α)) :
    Nat → List (NetworkNode α) → Option (List (NetworkNode α))
  | 0, st => some st
  | k + 1, st =>
    match seqUpdate (bwdUpd sel cs k) st with
    | none => none
    | some st2 => bwdLayers sel cs k st2

/-- Option-valued traversal (the `forEach` over `this.connections`, whose
per-connection updates are independent of each other). -/
def mapOpt {β γ : Type} (f : β → Option γ) : List β → Option (List γ)
  | [] => some []
  | b :: rest =>
    match f b with
    | none => none
    | some c => (mapOpt f rest).map (fun cs => c :: cs)

/-- Weight/gradient update of one connection in `backward`:
`gradient = toNode.error * fromNode.activation`, stored on the connection,
then `weight += learningRate * gradient`. -/
def updateConnection (lr : α) (ns : List (NetworkNode α)) (c : NetworkConnection α) :
    Option (NetworkConnection α) :=
  match findNode? ns c.fromNodeId, findNode? ns c.toNodeId with
  | some f, some t =>
    some { c with gradient := t.error * f.activation
                  weight := c.weight + lr * (t.error * f.activation) }
  | _, _ => none

/-- Embedding of `NeuralNetwork.backward`. -/
def backward (cfg : NetworkConfig α) (ns : List (NetworkNode α))
    (cs : List (NetworkConnection α)) (targets : List α) :
    Option (List (NetworkNode α) × List (NetworkConnection α)) :=
  let st1 := setOutputErrors cfg.activationFunction targets ns
  match bwdLayers cfg.activationFunction cs (maxLayer st1) st1 with
  | none => none
  | some st2 =>
    match mapOpt (updateConnection cfg.learningRate st2) cs with
    | none => none
    | some cs2 => some (st2, cs2)

end Model

/-! ### JS-faithful model of `backward`

The real-valued model above reads `targets` with a `0` default, which is
only faithful while every read is in range.  In JavaScript an out-of-range
read yields `undefined`, and `undefined - x` is `NaN`, which then
propagates through `*` and `+`.  The following second translation of
`backward` keeps that behaviour: a scalar that can be `NaN` is an
`Option α` whose `none` is `NaN`.  Node activations stay plain (`backward`
is called right after a `forward` pass, which writes no `NaN` for in-range
real inputs); `error`, `weight` and `gradient` can become `NaN`. -/

section JSModel

variable {α : Type} [LinearOrderedField α]

/-- JS addition: `NaN + x = x + NaN = NaN`, otherwise exact.  The operands
here are always finite numbers or `NaN`, so no other IEEE special case
arises. -/
def jadd : Option α → Option α → Option α
  | some a, some b => some (a + b)
  | _, _ => none

/-- JS subtraction with `NaN` (also covering `undefined - x = NaN`). -/
def jsub : Option α → Option α → Option α
  | some a, some b => some (a - b)
  | _, _ => none

/-- JS multiplication with `NaN`. -/
def jmul : Option α → Option α → Option α
  | some a, some b => some (a * b)
  | _, _ => none

/-- Node state as read and written by the JS-faithful `backward`. -/
structure JSNode (α : Type) where
  id : Nat
  layer : Nat
  type : NodeType
  activation : α
  error : Option α
deriving DecidableEq

/-- Connection state as read and written by the JS-faithful `backward`. -/
structure JSConn (α : Type) where
  fromNodeId : Nat
  toNodeId : Nat
  weight : Option α
  gradient : Option α
deriving DecidableEq

/-- Output error with true JS indexing: `targets[i]` is `undefined` out of
range, so the error is `NaN` there. -/
def jsOutErr (sel : String) (targets : List α) (i : Nat) (n : JSNode α) : Option α :=
  jmul (jsub targets[i]? (some n.activation)) (some (activateDerivative sel n.activation))

/-- Output-error loop of the JS-faithful `backward`. -/
def jsSetOutputErrorsGo (sel : String) (targets : List α) :
    List (JSNode α) → Nat → List (JSNode α)
  | [], _ => []
  | n :: rest, i =>
    if n.type = .output then
      { n with error := jsOutErr sel targets i n } :: jsSetOutputErrorsGo sel targets rest (i + 1)
    else n :: jsSetOutputErrorsGo sel targets rest i

/-- All output-error assignments of the JS-faithful `backward`. -/
def jsSetOutputErrors (sel : String) (targets : List α) (ns : List (JSNode α)) :
    List (JSNode α) :=
  jsSetOutputErrorsGo sel targets ns 0

/-- Node lookup in the JS-faithful model. -/
def jsFindNode? (ns : List (JSNode α)) (nid : Nat) : Option (JSNode α) :=
  ns.find? (fun n => n.id == nid)

/-- Layer bound in the JS-faithful model. -/
def jsMaxLayer (ns : List (JSNode α)) : Nat :=
  ns.foldr (fun n m => max n.layer m) 0

/-- Outgoing connections in the JS-faithful model. -/
def jsOutgoingOf (cs : List (JSConn α)) (nid : Nat) : List (JSConn α) :=
  cs.filter (fun c => c.fromNodeId == nid)

/-- The `errorSum` accumulation with `NaN` propagation; the outer `Option`
models the crash of `find(...)!`, the inner one is the `NaN`-able value. -/
def jsSumOutgoing (ns : List (JSNode α)) :
    List (JSConn α) → Option α → Option (Option α)
  | [], s => some s
  | c :: rest, s =>
    match jsFindNode? ns c.toNodeId with
    | none => none
    | some t => jsSumOutgoing ns rest (jadd s (jmul t.error c.weight))

/-- Backpropagated error sum of one node in the JS-faithful model. -/
def jsErrorSum (ns : List (JSNode α)) (cs : List (JSConn α)) (n : JSNode α) :
    Option (Option α) :=
  jsSumOutgoing ns (jsOutgoingOf cs n.id) (some 0)

/-- Per-node body of the hidden-layer loop in the JS-faithful model. -/
def jsBwdUpd (sel : String) (cs : List (JSConn α)) (l : Nat)
    (st : List (JSNode α)) (n : JSNode α) : Option (JSNode α) :=
  if n.layer = l then
    if n.type = .input then some n
    else (jsErrorSum st cs n).map
      (fun s => { n with error := jmul s (some (activateDerivative sel n.activation)) })
  else some n

/-- Descending layer loop of the JS-faithful `backward`. -/
def jsBwdLayers (sel : String) (cs : List (JSConn α)) :
    Nat → List (JSNode α) → Option (List (JSNode α))
  | 0, st => some st
  | k + 1, st =>
    match seqUpdate (jsBwdUpd sel cs k) st with
    | none => none
    | some st2 => jsBwdLayers sel cs k st2

/-- Weight/gradient update of one connection in the JS-faithful model. -/
def jsUpdateConnection (lr : α) (ns : List (JSNode α)) (c : JSConn α) :
    Option (JSConn α) :=
  match jsFindNode? ns c.fromNodeId, jsFindNode? ns c.toNodeId with
  | some f, some t =>
    some { c with gradient := jmul t.error (some f.activation)
                  weight := jadd c.weight (jmul (some lr) (jmul t.error (some f.activation))) }
  | _, _ => none

/-- JS-faithful embedding of `NeuralNetwork.backward`. -/
def jsBackward (sel : String) (lr : α) (ns : List (JSNode α)) (cs : List (JSConn α))
    (targets : List α) : Option (List (JSNode α) × List (JSConn α)) :=
  let st1 := jsSetOutputErrors sel targets ns
  match jsBwdLayers sel cs (jsMaxLayer st1) st1 with
  | none => none
  | some st2 =>
    match mapOpt (jsUpdateConnection lr st2) cs with
    | none => none
    | some cs2 => some (st2, cs2)

end JSModel

/-! ### Specification predicates and witness fixtures -/

section SpecDefs

variable {α : Type} [LinearOrderedField α]

/-- Structural well-formedness produced by the Topology Builder: ids are
distinct, a node's kind matches its layer (inputs at layer `0`, outputs at
the top layer, hidden strictly between), and every connection joins two
existing nodes of adjacent layers. -/
def WellFormed (ns : List (NetworkNode α)) (cs : List (NetworkConnection α)) : Prop :=
  (ns.map (fun n => n.id)).Nodup ∧
  (∀ n ∈ ns, (n.type = NodeType.input ↔ n.layer = 0)) ∧
  (∀ n ∈ ns, (n.type = NodeType.output ↔ n.layer = maxLayer ns)) ∧
  (∀ n ∈ ns, (n.type = NodeType.hidden ↔ (n.layer ≠ 0 ∧ n.layer ≠ maxLayer ns))) ∧
  (∀ c ∈ cs, ∃ f ∈ ns, ∃ t ∈ ns, f.id = c.fromNodeId ∧ t.id = c.toNodeId ∧ t.layer = f.layer + 1)

/-- Full bipartite layering: a connection from `a` to `b` exists iff `b` is
exactly one layer above `a`. -/
def Bipartite (ns : List (NetworkNode α)) (cs : List (NetworkConnection α)) : Prop :=
  ∀ a ∈ ns, ∀ b ∈ ns,
    ((∃ c ∈ cs, c.fromNodeId = a.id ∧ c.toNodeId = b.id) ↔ b.layer = a.layer + 1)

/-- Sum of adjacent products of a width list:
`adjProdSum [I, H1, ..., Hk, O] = I*H1 + H1*H2 + ... + Hk*O`. -/
def adjProdSum : List Nat → Nat
  | a :: b :: rest => a * b + adjProdSum (b :: rest)
  | _ => 0

/-- Index of the node at position `p` among the output-typed nodes. -/
def outIdxAt (ns : List (NetworkNode α)) (p : Nat) : Nat :=
  ((ns.take p).filter (fun n => n.type == NodeType.output)).length

/-- Index of the node at position `p` among the input-typed nodes. -/
def inIdxAt (ns : List (NetworkNode α)) (p : Nat) : Nat :=
  ((ns.take p).filter (fun n => n.type == NodeType.input)).length

/-- Equality of every node field except `activation` (what `forward` may
change). -/
def EqExceptActivation (a b : NetworkNode α) : Prop :=
  b.id = a.id ∧ b.x = a.x ∧ b.y = a.y ∧ b.layer = a.layer ∧
    b.bias = a.bias ∧ b.type = a.type ∧ b.error = a.error

/-- Equality of every node field except `error` (what `backward` may
change). -/
def EqExceptError (a b : NetworkNode α) : Prop :=
  b.id = a.id ∧ b.x = a.x ∧ b.y = a.y ∧ b.layer = a.layer ∧
    b.activation = a.activation ∧ b.bias = a.bias ∧ b.type = a.type

/-- Equality of a connection's identity and endpoints (what `backward`
never changes). -/
def ConnKeepsEndpoints (c c2 : NetworkConnection α) : Prop :=
  c2.id = c.id ∧ c2.fromNodeId = c.fromNodeId ∧ c2.toNodeId = c.toNodeId

/-- State `st` has, position by position, the same id, layer, kind and bias
as the reference node list `ns` (activations and errors may differ). -/
def Shadows (ns st : List (NetworkNode α)) : Prop :=
  st.length = ns.length ∧
  ∀ (j : Nat) (a b : NetworkNode α), ns[j]? = some a → st[j]? = some b →
    b.id = a.id ∧ b.layer = a.layer ∧ b.type = a.type ∧ b.bias = a.bias

/-- Prefix-updated intermediate state of a sequential pass: positions below
`i` already updated by `g`, the rest untouched. -/
def hyb {β : Type} (g : β → β) (ns : List β) (i : Nat) : List β :=
  (ns.take i).map g ++ ns.drop i

/-- Between the two states, activations agree on every node whose layer is
not `m`. -/
def AgreeOff (m : Nat) (ns st st2 : List (NetworkNode α)) : Prop :=
  ∀ (j : Nat) (a b b2 : NetworkNode α), ns[j]? = some a → st[j]? = some b →
    st2[j]? = some b2 → a.layer ≠ m → b2.activation = b.activation

/-- The per-layer update that the forward pass applies to layer `m`,
computed against the pass-entry state `st`. -/
def fwdGF (ops : ScalarOps α) (sel : String) (cs : List (NetworkConnection α))
    (st : List (NetworkNode α)) (m : Nat) (b : NetworkNode α) : NetworkNode α :=
  if b.layer = m then
    { b with activation := activate ops sel ((nodeSum st cs b).getD 0) }
  else b

/-- Between the two states, errors agree on every node whose layer is not
`m`. -/
def ErrAgreeOff (m : Nat) (ns st st2 : List (NetworkNode α)) : Prop :=
  ∀ (j : Nat) (a b b2 : NetworkNode α), ns[j]? = some a → st[j]? = some b →
    st2[j]? = some b2 → a.layer ≠ m → b2.error = b.error

/-- The per-layer update that the backward hidden pass applies to layer
`m`, computed against the pass-entry state `st`. -/
def bwdGF (sel : String) (cs : List (NetworkConnection α)) (st : List (NetworkNode α))
    (m : Nat) (b : NetworkNode α) : NetworkNode α :=
  if b.layer = m then
    if b.type = .input then b
    else { b with error := ((errorSum st cs b).getD 0) * activateDerivative sel b.activation }
  else b

/-- Invariant of the descending hidden-layer loop: activations untouched,
layers below `k` still carry the phase-1 errors, layers `k` and above are
final (non-hidden nodes keep the phase-1 error, hidden nodes satisfy the
backpropagation equation in the current state). -/
def BwdInv (sel : String) (cs : List (NetworkConnection α))
    (ns ms st : List (NetworkNode α)) (k : Nat) : Prop :=
  Shadows ns st ∧
  ∀ (j : Nat) (a b bm : NetworkNode α), ns[j]? = some a → st[j]? = some b →
    ms[j]? = some bm →
    b.activation = bm.activation ∧
    (a.layer < k → b.error = bm.error) ∧
    (k ≤ a.layer → (a.type ≠ .hidden → b.error = bm.error) ∧
      (a.type = .hidden → ∃ s, errorSum st cs b = some s ∧
        b.error = s * activateDerivative sel b.activation))

/-- Index of the node at position `p` among the output-typed nodes of the
JS model. -/
def jsOutIdxAt (ns : List (JSNode α)) (p : Nat) : Nat :=
  ((ns.take p).filter (fun n => n.type == NodeType.output)).length

/-- Pointwise id/layer/kind agreement with the reference JS node list. -/
def JsShadows (ns st : List (JSNode α)) : Prop :=
  st.length = ns.length ∧
  ∀ (j : Nat) (a b : JSNode α), ns[j]? = some a → st[j]? = some b →
    b.id = a.id ∧ b.layer = a.layer ∧ b.type = a.type

end SpecDefs

/-- Abstract scalar operations instantiated at `ℚ` for concrete runs; any
interpretation of `exp`/`tanh` works for the theorems below. -/
def wOps : ScalarOps ℚ := ⟨id, id⟩

/-- Concrete configuration for witness runs: widths 2-1-1, sigmoid. -/
def wCfg : NetworkConfig ℚ :=
  { inputSize := 2, hiddenLayers := [1], outputSize := 1,
    learningRate := 1, activationFunction := "sigmoid" }

/-- Concrete witness network, nodes (widths 2-1-1). -/
def wNodes : List (NetworkNode ℚ) :=
  [{ id := 0, x := 100, y := 100, layer := 0, activation := 0, bias := 0,
     type := .input, error := 0 },
   { id := 1, x := 100, y := 180, layer := 0, activation := 0, bias := 0,
     type := .input, error := 0 },
   { id := 2, x := 300, y := 100, layer := 1, activation := 0, bias := 1,
     type := .hidden, error := 0 },
   { id := 3, x := 500, y := 100, layer := 2, activation := 0, bias := 0,
     type := .output, error := 0 }]

/-- Concrete witness network, connections. -/
def wConns : List (NetworkConnection ℚ) :=
  [{ id := (0, 2), fromNodeId := 0, toNodeId := 2, weight := 1, gradient := 0 },
   { id := (1, 2), fromNodeId := 1, toNodeId := 2, weight := 1, gradient := 0 },
   { id := (2, 3), fromNodeId := 2, toNodeId := 3, weight := 1, gradient := 0 }]

/-- Concrete configuration with two output neurons (for the bias and
truncation counterexamples). -/
def cexCfg : NetworkConfig ℚ :=
  { inputSize := 1, hiddenLayers := [], outputSize := 2,
    learningRate := 1, activationFunction := "sigmoid" }

/-- Concrete two-output network, nodes. -/
def cexNodes : List (NetworkNode ℚ) :=
  [{ id := 0, x := 100, y := 100, layer := 0, activation := 1, bias := 0,
     type := .input, error := 0 },
   { id := 1, x := 300, y := 100, layer := 1, activation := 1, bias := 0,
     type := .output, error := 0 },
   { id := 2, x := 300, y := 180, layer := 1, activation := 1, bias := 0,
     type := .output, error := 0 }]

/-- Concrete two-output network, connections. -/
def cexConns : List (NetworkConnection ℚ) :=
  [{ id := (0, 1), fromNodeId := 0, toNodeId := 1, weight := 1, gradient := 0 },
   { id := (0, 2), fromNodeId := 0, toNodeId := 2, weight := 1, gradient := 0 }]

/-- JS-model version of the two-output network, nodes. -/
def jNodes : List (JSNode ℚ) :=
  [{ id := 0, layer := 0, type := .input, activation := 1, error := none },
   { id := 1, layer := 1, type := .output, activation := 1, error := none },
   { id := 2, layer := 1, type := .output, activation := 1, error := none }]

/-- JS-model version of the two-output network, connections. -/
def jConns : List (JSConn ℚ) :=
  [{ fromNodeId := 0, toNodeId := 1, weight := some 1, gradient := some 0 },
   { fromNodeId := 0, toNodeId := 2, weight := some 1, gradient := some 0 }]

/-! ### Small general lemmas -/

section Helpers

variable {α : Type} [LinearOrderedField α]

theorem list_set_self {β : Type} (l : List β) (i : Nat) (b : β) (h : l[i]? = some b) :
    l.set i b = l := by
  apply List.ext_getElem?
  intro j
  by_cases hj : i = j
  · subst hj
    rw [List.getElem?_set_self', h]
    rfl
  · rw [List.getElem?_set_ne hj]

theorem zip_self_eq_map (l : List α) : l.zip l = l.map (fun a => (a, a)) := by
  induction l with
  | nil => rfl
  | cons a t ih => simpa using ih

theorem sum_map_const_zero (l : List α) : (l.map (fun _ => (0 : α))).sum = 0 := by
  induction l with
  | nil => rfl
  | cons a t ih => simpa using ih

theorem getD_eq_getElem_of_lt (ts : List α) (i : Nat) (h : i < ts.length) :
    ts.getD i 0 = ts[i] := by
  simp [List.getD_eq_getElem?_getD, List.getElem?_eq_getElem h]

end Helpers

/-! ### C5: the activation library -/

section ActivationClaims

variable {α : Type} [LinearOrderedField α]

theorem lossSumGo_zip (ts : List α) :
    ∀ (ps : List α) (i : Nat) (s : α), i + ps.length ≤ ts.length →
      lossSumGo ts ps i s = s + ((ps.zip (ts.drop i)).map (fun q => (q.1 - q.2) ^ 2)).sum := by
  intro ps
  induction ps with
  | nil => intro i s _; simp [lossSumGo]
  | cons p rest ih =>
    intro i s h
    have hi : i < ts.length := by
      simp only [List.length_cons] at h; omega
    rw [lossSumGo, ih (i + 1) _ (by simp only [List.length_cons] at h ⊢; omega)]
    rw [List.drop_eq_getElem_cons hi]
    simp only [List.zip_cons_cons, List.map_cons, List.sum_cons,
      getD_eq_getElem_of_lt ts i hi]
    ring

/-- C5: the sigmoid activation is `1/(1+exp(-x))` with derivative
`a*(1-a)`; relu is `max 0 x` with the nonstandard derivative
`a if a > 0 else 0`; tanh is `tanh x` with derivative `1 - a^2`; and any
other selector falls back to the sigmoid formulas for both functions. -/
theorem C5_activation_library (ops : ScalarOps α) (x : α) (sel : String)
    (h1 : sel ≠ "sigmoid") (h2 : sel ≠ "relu") (h3 : sel ≠ "tanh") :
    activate ops "sigmoid" x = 1 / (1 + ops.exp (-x)) ∧
    activateDerivative "sigmoid" x = x * (1 - x) ∧
    activate ops "relu" x = max 0 x ∧
    activateDerivative "relu" x = (if x > 0 then x else 0) ∧
    activate ops "tanh" x = ops.tanh x ∧
    activateDerivative "tanh" x = 1 - x ^ 2 ∧
    activate ops sel x = 1 / (1 + ops.exp (-x)) ∧
    activateDerivative sel x = x * (1 - x) := by
  refine ⟨rfl, rfl, rfl, rfl, rfl, ?_, ?_, ?_⟩
  · rw [show activateDerivative "tanh" x = 1 - x * x from rfl]; ring
  · unfold activate; rw [if_neg h1, if_neg h2, if_neg h3]
  · unfold activateDerivative; rw [if_neg h1, if_neg h2, if_neg h3]

/-- Witness for C5 at the concrete unrecognized selector `"softmax"`. -/
theorem C5_witness :
    ("softmax" : String) ≠ "sigmoid" ∧
    (activate wOps "softmax" (2 : ℚ) = 1 / (1 + wOps.exp (-2)) ∧
      activateDerivative "softmax" (2 : ℚ) = 2 * (1 - 2)) := by
  refine ⟨by decide, ?_, ?_⟩
  · exact (C5_activation_library wOps 2 "softmax" (by decide) (by decide) (by decide)).2.2.2.2.2.2.1
  · exact (C5_activation_library wOps 2 "softmax" (by decide) (by decide) (by decide)).2.2.2.2.2.2.2

/-- C9: for equal-length non-empty vectors the loss is the mean squared
error, it is non-negative, and it vanishes on identical vectors. -/
theorem C9_loss_mse (ps ts : List α) (hlen : ps.length = ts.length) (hne : ps ≠ []) :
    calculateLoss ps ts = ((ps.zip ts).map (fun q => (q.1 - q.2) ^ 2)).sum / (ps.length : α) ∧
    0 ≤ calculateLoss ps ts ∧
    calculateLoss ps ps = 0 := by
  have hmean : calculateLoss ps ts
      = ((ps.zip ts).map (fun q => (q.1 - q.2) ^ 2)).sum / (ps.length : α) := by
    unfold calculateLoss
    rw [lossSumGo_zip ts ps 0 0 (by omega)]
    simp
  refine ⟨hmean, ?_, ?_⟩
  · rw [hmean]
    apply div_nonneg
    · apply List.sum_nonneg
      intro a ha
      rcases List.mem_map.mp ha with ⟨q, _, hq⟩
      exact hq ▸ sq_nonneg _
    · exact_mod_cast Nat.zero_le _
  · unfold calculateLoss
    rw [lossSumGo_zip ps ps 0 0 (by omega)]
    rw [List.drop_zero, zip_self_eq_map, List.map_map]
    have : ((fun q : α × α => (q.1 - q.2) ^ 2) ∘ fun a => (a, a)) = fun _ => (0 : α) := by
      funext a; simp
    rw [this, sum_map_const_zero]
    simp

/-- Witness for C9 on concrete vectors. -/
theorem C9_witness :
    ([(1 : ℚ), 2].length = [(3 : ℚ), 5].length ∧ ([(1 : ℚ), 2] ≠ [])) ∧
    (calculateLoss [(1 : ℚ), 2] [3, 5]
        = (([(1 : ℚ), 2].zip [3, 5]).map (fun q => (q.1 - q.2) ^ 2)).sum / (([(1 : ℚ), 2].length : ℚ)) ∧
      0 ≤ calculateLoss [(1 : ℚ), 2] [3, 5] ∧
      calculateLoss [(1 : ℚ), 2] [(1 : ℚ), 2] = 0) :=
  ⟨⟨by decide, by decide⟩, C9_loss_mse [(1 : ℚ), 2] [3, 5] (by decide) (by decide)⟩

end ActivationClaims

/-! ### Sequential-update machinery -/

section SeqMachinery

variable {α : Type} [LinearOrderedField α]

theorem seqGo_length {β : Type} (upd : List β → β → Option β) :
    ∀ (fuel i : Nat) (st st2 : List β), seqGo upd fuel i st = some st2 →
      st2.length = st.length := by
  intro fuel
  induction fuel with
  | zero =>
    intro i st st2 h
    simp only [seqGo, Option.some.injEq] at h
    rw [← h]
  | succ fuel ih =>
    intro i st st2 h
    rw [seqGo] at h
    split at h
    · simp only [Option.some.injEq] at h
      rw [← h]
    · split at h
      · exact absurd h (by simp)
      · rename_i b hgi b2 hu
        have := ih (i + 1) _ st2 h
        rw [this, List.length_set]

theorem seqGo_rel {β : Type} {R : β → β → Prop} (hrefl : ∀ b, R b b)
    (htrans : ∀ a b c, R a b → R b c → R a c)
    (upd : List β → β → Option β)
    (hupd : ∀ st b b2, upd st b = some b2 → R b b2) :
    ∀ (fuel i : Nat) (st st2 : List β), seqGo upd fuel i st = some st2 →
      ∀ (j : Nat) (a : β), st[j]? = some a → ∃ b, st2[j]? = some b ∧ R a b := by
  intro fuel
  induction fuel with
  | zero =>
    intro i st st2 h j a ha
    simp only [seqGo, Option.some.injEq] at h
    exact ⟨a, h ▸ ha, hrefl a⟩
  | succ fuel ih =>
    intro i st st2 h j a ha
    rw [seqGo] at h
    cases hgi : st[i]? with
    | none =>
      rw [hgi] at h
      have h2 : st = st2 := Option.some_inj.mp h
      exact ⟨a, h2 ▸ ha, hrefl a⟩
    | some b =>
      rw [hgi] at h
      have h2 : (match upd st b with
        | none => none
        | some b2 => seqGo upd fuel (i + 1) (st.set i b2)) = some st2 := h
      cases hu : upd st b with
      | none => rw [hu] at h2; exact absurd h2 (by simp)
      | some b2 =>
        rw [hu] at h2
        have h3 : seqGo upd fuel (i + 1) (st.set i b2) = some st2 := h2
        by_cases hji : j = i
        · subst hji
          have hab : a = b := by rw [ha] at hgi; exact Option.some_inj.mp hgi
          have hset : (st.set j b2)[j]? = some b2 := by
            rw [List.getElem?_set_self', ha]
            rfl
          obtain ⟨c, hc, hRc⟩ := ih (j + 1) (st.set j b2) st2 h3 j b2 hset
          exact ⟨c, hc, htrans a b2 c (hab ▸ hupd st b b2 hu) hRc⟩
        · have hset : (st.set i b2)[j]? = some a := by
            rw [List.getElem?_set_ne (Ne.symm hji)]
            exact ha
          exact ih (i + 1) (st.set i b2) st2 h3 j a hset

theorem mapOpt_forall₂ {β γ : Type} (f : β → Option γ) :
    ∀ (l : List β) (l2 : List γ), mapOpt f l = some l2 →
      List.Forall₂ (fun b c => f b = some c) l l2 := by
  intro l
  induction l with
  | nil =>
    intro l2 h
    simp only [mapOpt, Option.some.injEq] at h
    rw [← h]
    exact List.Forall₂.nil
  | cons b rest ih =>
    intro l2 h
    rw [mapOpt] at h
    split at h
    · exact absurd h (by simp)
    · rename_i c hc
      cases hrest : mapOpt f rest with
      | none => rw [hrest] at h; exact absurd h (by simp)
      | some cs2 =>
        rw [hrest] at h
        simp only [Option.map_some', Option.some.injEq] at h
        rw [← h]
        exact List.Forall₂.cons hc (ih cs2 hrest)

theorem mapOpt_total {β γ : Type} (f : β → Option γ) :
    ∀ (l : List β), (∀ b ∈ l, ∃ c, f b = some c) → ∃ l2, mapOpt f l = some l2 := by
  intro l
  induction l with
  | nil => intro _; exact ⟨[], rfl⟩
  | cons b rest ih =>
    intro h
    obtain ⟨c, hc⟩ := h b (List.mem_cons_self b rest)
    obtain ⟨cs2, hcs⟩ := ih (fun b2 hb => h b2 (List.mem_cons_of_mem _ hb))
    refine ⟨c :: cs2, ?_⟩
    rw [mapOpt, hc, hcs]
    rfl

theorem forall₂_of_pointwise {β γ : Type} {R : β → γ → Prop} (l1 : List β) (l2 : List γ)
    (hlen : l2.length = l1.length)
    (h : ∀ (j : Nat) (a : β), l1[j]? = some a → ∃ b, l2[j]? = some b ∧ R a b) :
    List.Forall₂ R l1 l2 := by
  rw [List.forall₂_iff_get]
  refine ⟨hlen.symm, ?_⟩
  intro i h1 h2
  obtain ⟨b, hb, hR⟩ := h i (l1.get ⟨i, h1⟩)
    (by simp [List.get_eq_getElem, List.getElem?_eq_getElem h1])
  have h2' : l2[i]? = some l2[i] := List.getElem?_eq_getElem h2
  rw [h2'] at hb
  have : l2[i] = b := Option.some_inj.mp hb
  simpa [List.get_eq_getElem, this] using hR

end SeqMachinery

/-! ### Characterizations of the traversal phases -/

section PhaseLemmas

variable {α : Type} [LinearOrderedField α]

theorem setInputsGo_length (inputs : List α) :
    ∀ (l : List (NetworkNode α)) (c : Nat), (setInputsGo inputs l c).length = l.length := by
  intro l
  induction l with
  | nil => intro c; rfl
  | cons n rest ih =>
    intro c
    rw [setInputsGo]
    by_cases hn : n.type = .input
    · rw [if_pos hn]; simp [ih]
    · rw [if_neg hn]; simp [ih]

theorem setInputsGo_getElem (inputs : List α) :
    ∀ (l : List (NetworkNode α)) (c j : Nat),
      (setInputsGo inputs l c)[j]? = (l[j]?).map (fun n =>
        if n.type = .input then
          { n with activation := inputs.getD (c + ((l.take j).filter (fun m => m.type == NodeType.input)).length) 0 }
        else n) := by
  intro l
  induction l with
  | nil => intro c j; simp [setInputsGo]
  | cons n rest ih =>
    intro c j
    rw [setInputsGo]
    by_cases hn : n.type = .input
    · rw [if_pos hn]
      cases j with
      | zero => simp [hn]
      | succ j' =>
        simp only [List.getElem?_cons_succ, List.take_succ_cons, List.filter_cons]
        rw [ih (c + 1) j']
        simp [hn, Nat.add_assoc, Nat.add_comm 1]
    · rw [if_neg hn]
      cases j with
      | zero => simp [hn]
      | succ j' =>
        simp only [List.getElem?_cons_succ, List.take_succ_cons, List.filter_cons]
        rw [ih c j']
        simp [hn]

theorem setOutputErrorsGo_length (sel : String) (ts : List α) :
    ∀ (l : List (NetworkNode α)) (c : Nat), (setOutputErrorsGo sel ts l c).length = l.length := by
  intro l
  induction l with
  | nil => intro c; rfl
  | cons n rest ih =>
    intro c
    rw [setOutputErrorsGo]
    by_cases hn : n.type = .output
    · rw [if_pos hn]; simp [ih]
    · rw [if_neg hn]; simp [ih]

theorem setOutputErrorsGo_getElem (sel : String) (ts : List α) :
    ∀ (l : List (NetworkNode α)) (c j : Nat),
      (setOutputErrorsGo sel ts l c)[j]? = (l[j]?).map (fun n =>
        if n.type = .output then
          { n with error := outErrOf sel ts (c + ((l.take j).filter (fun m => m.type == NodeType.output)).length) n }
        else n) := by
  intro l
  induction l with
  | nil => intro c j; simp [setOutputErrorsGo]
  | cons n rest ih =>
    intro c j
    rw [setOutputErrorsGo]
    by_cases hn : n.type = .output
    · rw [if_pos hn]
      cases j with
      | zero => simp [hn]
      | succ j' =>
        simp only [List.getElem?_cons_succ, List.take_succ_cons, List.filter_cons]
        rw [ih (c + 1) j']
        simp [hn, Nat.add_assoc, Nat.add_comm 1]
    · rw [if_neg hn]
      cases j with
      | zero => simp [hn]
      | succ j' =>
        simp only [List.getElem?_cons_succ, List.take_succ_cons, List.filter_cons]
        rw [ih c j']
        simp [hn]

theorem eqExceptActivation_refl (a : NetworkNode α) : EqExceptActivation a a := by
  unfold EqExceptActivation
  exact ⟨rfl, rfl, rfl, rfl, rfl, rfl, rfl⟩

theorem eqExceptActivation_trans (a b c : NetworkNode α)
    (h1 : EqExceptActivation a b) (h2 : EqExceptActivation b c) :
    EqExceptActivation a c := by
  unfold EqExceptActivation at h1 h2 ⊢
  obtain ⟨e1, e2, e3, e4, e5, e6, e7⟩ := h1
  obtain ⟨f1, f2, f3, f4, f5, f6, f7⟩ := h2
  exact ⟨f1.trans e1, f2.trans e2, f3.trans e3, f4.trans e4,
    f5.trans e5, f6.trans e6, f7.trans e7⟩

theorem eqExceptError_refl (a : NetworkNode α) : EqExceptError a a := by
  unfold EqExceptError
  exact ⟨rfl, rfl, rfl, rfl, rfl, rfl, rfl⟩

theorem eqExceptError_trans (a b c : NetworkNode α)
    (h1 : EqExceptError a b) (h2 : EqExceptError b c) : EqExceptError a c := by
  unfold EqExceptError at h1 h2 ⊢
  obtain ⟨e1, e2, e3, e4, e5, e6, e7⟩ := h1
  obtain ⟨f1, f2, f3, f4, f5, f6, f7⟩ := h2
  exact ⟨f1.trans e1, f2.trans e2, f3.trans e3, f4.trans e4,
    f5.trans e5, f6.trans e6, f7.trans e7⟩

theorem fwdUpd_frame (ops : ScalarOps α) (sel : String) (cs : List (NetworkConnection α))
    (l : Nat) (st : List (NetworkNode α)) (n n2 : NetworkNode α)
    (h : fwdUpd ops sel cs l st n = some n2) : EqExceptActivation n n2 := by
  unfold fwdUpd at h
  split at h
  · cases hs : nodeSum st cs n with
    | none => rw [hs] at h; exact absurd h (by simp)
    | some s =>
      rw [hs] at h
      simp only [Option.map_some', Option.some.injEq] at h
      rw [← h]
      exact ⟨rfl, rfl, rfl, rfl, rfl, rfl, rfl⟩
  · simp only [Option.some.injEq] at h
    rw [← h]
    exact eqExceptActivation_refl n

theorem bwdUpd_frame (sel : String) (cs : List (NetworkConnection α))
    (l : Nat) (st : List (NetworkNode α)) (n n2 : NetworkNode α)
    (h : bwdUpd sel cs l st n = some n2) : EqExceptError n n2 := by
  unfold bwdUpd at h
  split at h
  · split at h
    · simp only [Option.some.injEq] at h
      rw [← h]
      exact eqExceptError_refl n
    · cases hs : errorSum st cs n with
      | none => rw [hs] at h; exact absurd h (by simp)
      | some s =>
        rw [hs] at h
        simp only [Option.map_some', Option.some.injEq] at h
        rw [← h]
        exact ⟨rfl, rfl, rfl, rfl, rfl, rfl, rfl⟩
  · simp only [Option.some.injEq] at h
    rw [← h]
    exact eqExceptError_refl n

theorem fwdLayers_rel {R : NetworkNode α → NetworkNode α → Prop}
    (ops : ScalarOps α) (sel : String) (cs : List (NetworkConnection α))
    (hrefl : ∀ b, R b b) (htrans : ∀ a b c, R a b → R b c → R a c)
    (hupd : ∀ (l : Nat) st n n2, fwdUpd ops sel cs l st n = some n2 → R n n2) :
    ∀ (k : Nat) (st st2 : List (NetworkNode α)), fwdLayers ops sel cs k st = some st2 →
      ∀ (j : Nat) (a : NetworkNode α), st[j]? = some a →
        ∃ b, st2[j]? = some b ∧ R a b := by
  intro k
  induction k with
  | zero =>
    intro st st2 h j a ha
    simp only [fwdLayers, Option.some.injEq] at h
    exact ⟨a, h ▸ ha, hrefl a⟩
  | succ k ih =>
    intro st st2 h j a ha
    rw [fwdLayers] at h
    split at h
    · exact absurd h (by simp)
    · rename_i stm hm
      rw [seqUpdate] at h
      obtain ⟨b, hb, hab⟩ := ih st stm hm j a ha
      obtain ⟨c, hc, hbc⟩ := seqGo_rel hrefl htrans _ (hupd (k + 1)) stm.length 0 stm st2 h j b hb
      exact ⟨c, hc, htrans a b c hab hbc⟩

theorem bwdLayers_rel {R : NetworkNode α → NetworkNode α → Prop}
    (sel : String) (cs : List (NetworkConnection α))
    (hrefl : ∀ b, R b b) (htrans : ∀ a b c, R a b → R b c → R a c)
    (hupd : ∀ (l : Nat) st n n2, bwdUpd sel cs l st n = some n2 → R n n2) :
    ∀ (k : Nat) (st st2 : List (NetworkNode α)), bwdLayers sel cs k st = some st2 →
      ∀ (j : Nat) (a : NetworkNode α), st[j]? = some a →
        ∃ b, st2[j]? = some b ∧ R a b := by
  intro k
  induction k with
  | zero =>
    intro st st2 h j a ha
    simp only [bwdLayers, Option.some.injEq] at h
    exact ⟨a, h ▸ ha, hrefl a⟩
  | succ k ih =>
    intro st st2 h j a ha
    rw [bwdLayers] at h
    split at h
    · exact absurd h (by simp)
    · rename_i stm hm
      rw [seqUpdate] at hm
      obtain ⟨b, hb, hab⟩ := seqGo_rel hrefl htrans _ (hupd k) st.length 0 st stm hm j a ha
      obtain ⟨c, hc, hbc⟩ := ih stm st2 h j b hb
      exact ⟨c, hc, htrans a b c hab hbc⟩

theorem fwdLayers_length (ops : ScalarOps α) (sel : String) (cs : List (NetworkConnection α)) :
    ∀ (k : Nat) (st st2 : List (NetworkNode α)), fwdLayers ops sel cs k st = some st2 →
      st2.length = st.length := by
  intro k
  induction k with
  | zero =>
    intro st st2 h
    simp only [fwdLayers, Option.some.injEq] at h
    rw [← h]
  | succ k ih =>
    intro st st2 h
    rw [fwdLayers] at h
    split at h
    · exact absurd h (by simp)
    · rename_i stm hm
      rw [seqUpdate] at h
      rw [seqGo_length _ _ _ _ _ h, ih st stm hm]

theorem bwdLayers_length (sel : String) (cs : List (NetworkConnection α)) :
    ∀ (k : Nat) (st st2 : List (NetworkNode α)), bwdLayers sel cs k st = some st2 →
      st2.length = st.length := by
  intro k
  induction k with
  | zero =>
    intro st st2 h
    simp only [bwdLayers, Option.some.injEq] at h
    rw [← h]
  | succ k ih =>
    intro st st2 h
    rw [bwdLayers] at h
    split at h
    · exact absurd h (by simp)
    · rename_i stm hm
      rw [seqUpdate] at hm
      rw [ih stm st2 h, seqGo_length _ _ _ _ _ hm]

end PhaseLemmas

/-! ### C1 and C10: what `backward` and `forward` mutate -/

section FrameClaims

variable {α : Type} [LinearOrderedField α]

theorem setOutputErrors_length (sel : String) (ts : List α) (ns : List (NetworkNode α)) :
    (setOutputErrors sel ts ns).length = ns.length := by
  rw [setOutputErrors]
  exact setOutputErrorsGo_length sel ts ns 0

theorem setInputs_length (ns : List (NetworkNode α)) (inputs : List α) :
    (setInputs ns inputs).length = ns.length := by
  rw [setInputs]
  exact setInputsGo_length inputs ns 0

theorem setOutputErrors_pointwise (sel : String) (ts : List α) (ns : List (NetworkNode α))
    (j : Nat) (a : NetworkNode α) (ha : ns[j]? = some a) :
    ∃ b, (setOutputErrors sel ts ns)[j]? = some b ∧ EqExceptError a b ∧
      (a.type ≠ .output → b = a) ∧
      (a.type = .output → b.error = outErrOf sel ts (outIdxAt ns j) a) := by
  rw [setOutputErrors, setOutputErrorsGo_getElem, ha]
  refine ⟨_, rfl, ?_, ?_, ?_⟩
  · by_cases hn : a.type = .output
    · simp only [if_pos hn]
      exact ⟨rfl, rfl, rfl, rfl, rfl, rfl, rfl⟩
    · simp only [if_neg hn]
      exact eqExceptError_refl a
  · intro hn
    simp [hn]
  · intro hn
    simp only [if_pos hn, outIdxAt, Nat.zero_add]

theorem setInputs_pointwise (ns : List (NetworkNode α)) (inputs : List α)
    (j : Nat) (a : NetworkNode α) (ha : ns[j]? = some a) :
    ∃ b, (setInputs ns inputs)[j]? = some b ∧ EqExceptActivation a b ∧
      (a.type ≠ .input → b = a) ∧
      (a.type = .input → b.activation = inputs.getD (inIdxAt ns j) 0) := by
  rw [setInputs, setInputsGo_getElem, ha]
  refine ⟨_, rfl, ?_, ?_, ?_⟩
  · by_cases hn : a.type = .input
    · simp only [if_pos hn]
      exact ⟨rfl, rfl, rfl, rfl, rfl, rfl, rfl⟩
    · simp only [if_neg hn]
      exact eqExceptActivation_refl a
  · intro hn
    simp [hn]
  · intro hn
    simp only [if_pos hn, inIdxAt, Nat.zero_add]

theorem updateConnection_endpoints (lr : α) (ns : List (NetworkNode α))
    (c c2 : NetworkConnection α) (h : updateConnection lr ns c = some c2) :
    ConnKeepsEndpoints c c2 := by
  unfold updateConnection at h
  split at h
  · have h2 := Option.some_inj.mp h
    rw [← h2]
    exact ⟨rfl, rfl, rfl⟩
  · exact absurd h (by simp)

theorem backward_elim (cfg : NetworkConfig α) (ns : List (NetworkNode α))
    (cs : List (NetworkConnection α)) (targets : List α)
    (ns2 : List (NetworkNode α)) (cs2 : List (NetworkConnection α))
    (h : backward cfg ns cs targets = some (ns2, cs2)) :
    bwdLayers cfg.activationFunction cs
        (maxLayer (setOutputErrors cfg.activationFunction targets ns))
        (setOutputErrors cfg.activationFunction targets ns) = some ns2 ∧
      mapOpt (updateConnection cfg.learningRate ns2) cs = some cs2 := by
  simp only [backward] at h
  cases hm : bwdLayers cfg.activationFunction cs
      (maxLayer (setOutputErrors cfg.activationFunction targets ns))
      (setOutputErrors cfg.activationFunction targets ns) with
  | none => rw [hm] at h; exact absurd h (by simp)
  | some stm =>
    rw [hm] at h
    have h2 : (match mapOpt (updateConnection cfg.learningRate stm) cs with
      | none => none
      | some cs2 => some (stm, cs2)) = some (ns2, cs2) := h
    cases hcs : mapOpt (updateConnection cfg.learningRate stm) cs with
    | none => rw [hcs] at h2; exact absurd h2 (by simp)
    | some cs2b =>
      rw [hcs] at h2
      have hpair : (stm, cs2b) = (ns2, cs2) := Option.some_inj.mp h2
      have hns : stm = ns2 := congrArg Prod.fst hpair
      have hcs2 : cs2b = cs2 := congrArg Prod.snd hpair
      subst hns
      subst hcs2
      exact ⟨rfl, hcs⟩

theorem backward_node_frame (cfg : NetworkConfig α) (ns : List (NetworkNode α))
    (cs : List (NetworkConnection α)) (targets : List α)
    (ns2 : List (NetworkNode α)) (cs2 : List (NetworkConnection α))
    (h : backward cfg ns cs targets = some (ns2, cs2)) :
    List.Forall₂ EqExceptError ns ns2 := by
  obtain ⟨hm, _⟩ := backward_elim cfg ns cs targets ns2 cs2 h
  have hlen : ns2.length = ns.length := by
    rw [bwdLayers_length _ _ _ _ _ hm, setOutputErrors_length]
  apply forall₂_of_pointwise ns ns2 hlen
  intro j a ha
  obtain ⟨b, hb, hEE, _, _⟩ :=
    setOutputErrors_pointwise cfg.activationFunction targets ns j a ha
  obtain ⟨c, hc, hbc⟩ := bwdLayers_rel cfg.activationFunction cs
    (R := EqExceptError) eqExceptError_refl eqExceptError_trans
    (fun l st n n2 hu => bwdUpd_frame cfg.activationFunction cs l st n n2 hu)
    _ _ _ hm j b hb
  exact ⟨c, hc, eqExceptError_trans a b c hEE hbc⟩

theorem backward_conn_frame (cfg : NetworkConfig α) (ns : List (NetworkNode α))
    (cs : List (NetworkConnection α)) (targets : List α)
    (ns2 : List (NetworkNode α)) (cs2 : List (NetworkConnection α))
    (h : backward cfg ns cs targets = some (ns2, cs2)) :
    List.Forall₂ ConnKeepsEndpoints cs cs2 := by
  obtain ⟨_, hcs⟩ := backward_elim cfg ns cs targets ns2 cs2 h
  have := mapOpt_forall₂ (updateConnection cfg.learningRate ns2) cs cs2 hcs
  exact this.imp (fun a b hfc => updateConnection_endpoints cfg.learningRate ns2 a b hfc)

theorem forward_elim (ops : ScalarOps α) (cfg : NetworkConfig α)
    (ns : List (NetworkNode α)) (cs : List (NetworkConnection α)) (inputs : List α)
    (ns2 : List (NetworkNode α)) (outs : List α)
    (h : forward ops cfg ns cs inputs = some (ns2, outs)) :
    fwdLayers ops cfg.activationFunction cs
        (maxLayer (setInputs ns inputs)) (setInputs ns inputs) = some ns2 ∧
      outs = outputsOf ns2 := by
  simp only [forward] at h
  cases hm : fwdLayers ops cfg.activationFunction cs
      (maxLayer (setInputs ns inputs)) (setInputs ns inputs) with
  | none => rw [hm] at h; exact absurd h (by simp)
  | some stm =>
    rw [hm] at h
    have hpair : (stm, outputsOf stm) = (ns2, outs) := Option.some_inj.mp h
    have hns : stm = ns2 := congrArg Prod.fst hpair
    have houts : outputsOf stm = outs := congrArg Prod.snd hpair
    subst hns
    exact ⟨rfl, houts.symm⟩

theorem forward_node_frame (ops : ScalarOps α) (cfg : NetworkConfig α)
    (ns : List (NetworkNode α)) (cs : List (NetworkConnection α)) (inputs : List α)
    (ns2 : List (NetworkNode α)) (outs : List α)
    (h : forward ops cfg ns cs inputs = some (ns2, outs)) :
    List.Forall₂ EqExceptActivation ns ns2 := by
  obtain ⟨hm, _⟩ := forward_elim ops cfg ns cs inputs ns2 outs h
  have hlen : ns2.length = ns.length := by
    rw [fwdLayers_length _ _ _ _ _ _ hm, setInputs_length]
  apply forall₂_of_pointwise ns ns2 hlen
  intro j a ha
  obtain ⟨b, hb, hEA, _, _⟩ := setInputs_pointwise ns inputs j a ha
  obtain ⟨c, hc, hbc⟩ := fwdLayers_rel ops cfg.activationFunction cs
    (R := EqExceptActivation) eqExceptActivation_refl eqExceptActivation_trans
    (fun l st n n2 hu => fwdUpd_frame ops cfg.activationFunction cs l st n n2 hu)
    _ _ _ hm j b hb
  exact ⟨c, hc, eqExceptActivation_trans a b c hEA hbc⟩

/-- C1 (amended): `backward` never changes any neuron's bias.  The
gradient-descent update applies only to connection weights; every bias
keeps the value fixed at construction.  (The claim as stated — that each
non-input neuron's bias changes — is refuted by `C1_counterexample`.) -/
theorem C1_backward_keeps_biases (cfg : NetworkConfig α) (ns : List (NetworkNode α))
    (cs : List (NetworkConnection α)) (targets : List α)
    (ns2 : List (NetworkNode α)) (cs2 : List (NetworkConnection α))
    (h : backward cfg ns cs targets = some (ns2, cs2)) :
    List.Forall₂ (fun a b => b.bias = a.bias) ns ns2 := by
  have := backward_node_frame cfg ns cs targets ns2 cs2 h
  exact this.imp (fun a b hEE => hEE.2.2.2.2.2.1)

/-- Counterexample to C1 as stated: a concrete `backward` call (with a
full-length target vector) after which the bias of an output neuron is
exactly its construction value. -/
theorem C1_counterexample :
    ∃ p, backward cexCfg cexNodes cexConns [1, 1] = some p ∧
      (p.1[1]?).map (fun n => n.type) = some NodeType.output ∧
      (p.1[1]?).map (fun n => n.bias) = (cexNodes[1]?).map (fun n => n.bias) :=
  ⟨_, rfl, by decide, by decide⟩

/-- Witness for the amended C1 on a concrete run. -/
theorem C1_witness :
    ∃ p, backward wCfg wNodes wConns [1] = some p ∧
      List.Forall₂ (fun a b => b.bias = a.bias) wNodes p.1 :=
  ⟨_, rfl, C1_backward_keeps_biases wCfg wNodes wConns [1] _ _ rfl⟩

/-- C10: `forward` mutates only activations: every other node field (id,
position, layer, bias, type, and the transient error) is unchanged, and the
node list keeps its length and order.  The connection list is not written
at all (in this embedding `forward` does not even produce one). -/
theorem C10_forward_frame (ops : ScalarOps α) (cfg : NetworkConfig α)
    (ns : List (NetworkNode α)) (cs : List (NetworkConnection α)) (inputs : List α)
    (ns2 : List (NetworkNode α)) (outs : List α)
    (h : forward ops cfg ns cs inputs = some (ns2, outs)) :
    List.Forall₂ EqExceptActivation ns ns2 :=
  forward_node_frame ops cfg ns cs inputs ns2 outs h

/-- Witness for C10 on a concrete run. -/
theorem C10_witness :
    ∃ r, forward wOps wCfg wNodes wConns [1, 1] = some r ∧
      List.Forall₂ EqExceptActivation wNodes r.1 :=
  ⟨_, rfl, C10_forward_frame wOps wCfg wNodes wConns [1, 1] _ _ rfl⟩

end FrameClaims

/-! ### C6: topology size and node kinds -/

section TopologyLemmas

variable {α : Type} [LinearOrderedField α]

theorem buildNodesGo_map_id (rngB : Nat → α) (total : Nat) :
    ∀ (sizes : List Nat) (li nid : Nat),
      (buildNodesGo rngB total sizes li nid).map (fun n => n.id) =
        List.range' nid sizes.sum := by
  intro sizes
  induction sizes with
  | nil => intro li nid; simp [buildNodesGo]
  | cons size rest ih =>
    intro li nid
    rw [buildNodesGo, List.map_append, List.map_map, ih (li + 1) (nid + size)]
    have h1 : (List.range size).map
        ((fun n : NetworkNode α => n.id) ∘ (fun i =>
          ({ id := nid + i, x := ((li * 200 + 100 : Nat) : α), y := ((i * 80 + 100 : Nat) : α),
             layer := li, activation := 0, bias := rngB (nid + i) * 2 - 1,
             type := layerTypeOf total li, error := 0 } : NetworkNode α)))
        = (List.range size).map (fun i => nid + i) := rfl
    rw [h1, ← List.range'_eq_map_range]
    have h2 := List.range'_append nid size rest.sum 1
    simp only [Nat.one_mul] at h2
    rw [h2, List.sum_cons, Nat.add_comm rest.sum size]

theorem buildNodesGo_length (rngB : Nat → α) (total : Nat)
    (sizes : List Nat) (li nid : Nat) :
    (buildNodesGo rngB total sizes li nid).length = sizes.sum := by
  have := congrArg List.length (buildNodesGo_map_id rngB total sizes li nid)
  simpa using this

theorem buildNodesGo_nodup_id (rngB : Nat → α) (total : Nat)
    (sizes : List Nat) (li nid : Nat) :
    ((buildNodesGo rngB total sizes li nid).map (fun n => n.id)).Nodup := by
  rw [buildNodesGo_map_id]
  exact List.nodup_range' nid sizes.sum

theorem buildNodesGo_mem (rngB : Nat → α) (total : Nat) :
    ∀ (sizes : List Nat) (li nid : Nat) (n : NetworkNode α),
      n ∈ buildNodesGo rngB total sizes li nid →
        n.type = layerTypeOf total n.layer ∧ li ≤ n.layer ∧ n.layer < li + sizes.length := by
  intro sizes
  induction sizes with
  | nil => intro li nid n hn; exact absurd hn (by simp [buildNodesGo])
  | cons size rest ih =>
    intro li nid n hn
    rw [buildNodesGo, List.mem_append] at hn
    cases hn with
    | inl hblock =>
      obtain ⟨i, _, hni⟩ := List.mem_map.mp hblock
      rw [← hni]
      refine ⟨rfl, Nat.le_refl li, ?_⟩
      simp only [List.length_cons]
      omega
    | inr hrest =>
      obtain ⟨ht, hle, hlt⟩ := ih (li + 1) (nid + size) n hrest
      refine ⟨ht, by omega, ?_⟩
      simp only [List.length_cons]
      omega

theorem buildNodesGo_filter_layer (rngB : Nat → α) (total : Nat) :
    ∀ (sizes : List Nat) (li nid j : Nat),
      ((buildNodesGo rngB total sizes li nid).filter
        (fun n => n.layer == li + j)).length = sizes.getD j 0 := by
  intro sizes
  induction sizes with
  | nil => intro li nid j; simp [buildNodesGo]
  | cons size rest ih =>
    intro li nid j
    rw [buildNodesGo, List.filter_append, List.length_append]
    cases j with
    | zero =>
      have hblock : ((List.range size).map (fun i =>
          ({ id := nid + i, x := ((li * 200 + 100 : Nat) : α), y := ((i * 80 + 100 : Nat) : α),
             layer := li, activation := 0, bias := rngB (nid + i) * 2 - 1,
             type := layerTypeOf total li, error := 0 } : NetworkNode α))).filter
          (fun n => n.layer == li + 0) = (List.range size).map (fun i =>
          ({ id := nid + i, x := ((li * 200 + 100 : Nat) : α), y := ((i * 80 + 100 : Nat) : α),
             layer := li, activation := 0, bias := rngB (nid + i) * 2 - 1,
             type := layerTypeOf total li, error := 0 } : NetworkNode α)) := by
        apply List.filter_eq_self.mpr
        intro n hn
        obtain ⟨i, _, hni⟩ := List.mem_map.mp hn
        rw [← hni]
        simp
      have hrest : ((buildNodesGo rngB total rest (li + 1) (nid + size)).filter
          (fun n => n.layer == li + 0)).length = 0 := by
        rw [List.length_eq_zero]
        apply List.filter_eq_nil_iff.mpr
        intro n hn
        have := (buildNodesGo_mem rngB total rest (li + 1) (nid + size) n hn).2.1
        simp only [beq_iff_eq]
        omega
      rw [hblock, hrest, List.length_map, List.length_range]
      simp
    | succ j' =>
      have hblock : ((List.range size).map (fun i =>
          ({ id := nid + i, x := ((li * 200 + 100 : Nat) : α), y := ((i * 80 + 100 : Nat) : α),
             layer := li, activation := 0, bias := rngB (nid + i) * 2 - 1,
             type := layerTypeOf total li, error := 0 } : NetworkNode α))).filter
          (fun n => n.layer == li + (j' + 1)) = [] := by
        apply List.filter_eq_nil_iff.mpr
        intro n hn
        obtain ⟨i, _, hni⟩ := List.mem_map.mp hn
        rw [← hni]
        simp only [beq_iff_eq]
        omega
      have harith : li + (j' + 1) = (li + 1) + j' := by omega
      rw [hblock, harith, ih (li + 1) (nid + size) j']
      simp

theorem buildNodes_nodesAtLayer (rngB : Nat → α) (sizes : List Nat) (l : Nat) :
    (nodesAtLayer (buildNodes rngB sizes) l).length = sizes.getD l 0 := by
  rw [nodesAtLayer, buildNodes]
  have := buildNodesGo_filter_layer rngB sizes.length sizes 0 0 l
  simpa using this

theorem sum_map_fun_const {γ : Type} (l : List γ) (c : Nat) :
    (l.map (fun _ => c)).sum = l.length * c := by
  induction l with
  | nil => simp
  | cons a t ih => simp [ih, Nat.succ_mul, Nat.add_comm]

theorem connPairs_length (ns : List (NetworkNode α)) (L : Nat) :
    (connPairs ns L).length =
      ((List.range (L - 1)).map
        (fun l => (nodesAtLayer ns l).length * (nodesAtLayer ns (l + 1)).length)).sum := by
  rw [connPairs, List.length_flatMap]
  congr 1
  apply List.map_congr_left
  intro l _
  simp only [Function.comp]
  rw [List.length_flatMap]
  have : (List.length ∘ fun f : NetworkNode α =>
      (nodesAtLayer ns (l + 1)).map (fun t => (f, t)))
      = fun _ : NetworkNode α => (nodesAtLayer ns (l + 1)).length := by
    funext f
    simp
  rw [this, sum_map_fun_const]

theorem rangeSum_adjProdSum :
    ∀ sizes : List Nat,
      ((List.range (sizes.length - 1)).map
        (fun l => sizes.getD l 0 * sizes.getD (l + 1) 0)).sum = adjProdSum sizes := by
  intro sizes
  induction sizes with
  | nil => simp [adjProdSum]
  | cons a rest ih =>
    cases rest with
    | nil => simp [adjProdSum]
    | cons b rest' =>
      have hlen : (a :: b :: rest').length - 1 = rest'.length + 1 := by simp
      rw [hlen, List.range_succ_eq_map, List.map_cons, List.sum_cons, List.map_map]
      have hhead : (a :: b :: rest').getD 0 0 * (a :: b :: rest').getD (0 + 1) 0 = a * b := by
        simp
      have htail : ((List.range rest'.length).map
          ((fun l => (a :: b :: rest').getD l 0 * (a :: b :: rest').getD (l + 1) 0) ∘ Nat.succ)).sum
          = adjProdSum (b :: rest') := by
        have hcongr : (List.range rest'.length).map
            ((fun l => (a :: b :: rest').getD l 0 * (a :: b :: rest').getD (l + 1) 0) ∘ Nat.succ)
            = (List.range rest'.length).map
              (fun l => (b :: rest').getD l 0 * (b :: rest').getD (l + 1) 0) := by
          apply List.map_congr_left
          intro l _
          simp [Function.comp, List.getD_cons_succ]
        rw [hcongr]
        have hlen2 : rest'.length = (b :: rest').length - 1 := by simp
        rw [hlen2]
        exact ih
      rw [hhead, htail]
      rfl

theorem initializeNetwork_fst (cfg : NetworkConfig α) (rngB rngW : Nat → α) :
    (initializeNetwork cfg rngB rngW).1 = buildNodes rngB (layerSizes cfg) := rfl

theorem initializeNetwork_snd_length (cfg : NetworkConfig α) (rngB rngW : Nat → α) :
    (initializeNetwork cfg rngB rngW).2.length =
      (connPairs (buildNodes rngB (layerSizes cfg)) (layerSizes cfg).length).length := by
  simp [initializeNetwork]

/-- C6: construction produces exactly `I + H1 + ... + Hk + O` neurons and
`I*H1 + H1*H2 + ... + Hk*O` connections (`I*O` with no hidden layers), the
first layer's nodes typed input, the last layer's typed output, and all
strictly-in-between layers typed hidden. -/
theorem C6_topology_size (cfg : NetworkConfig α) (rngB rngW : Nat → α)
    (hI : 0 < cfg.inputSize) (hO : 0 < cfg.outputSize)
    (hH : ∀ h ∈ cfg.hiddenLayers, 0 < h) :
    (initializeNetwork cfg rngB rngW).1.length
        = cfg.inputSize + cfg.hiddenLayers.sum + cfg.outputSize ∧
    (initializeNetwork cfg rngB rngW).2.length = adjProdSum (layerSizes cfg) ∧
    (cfg.hiddenLayers = [] →
      (initializeNetwork cfg rngB rngW).2.length = cfg.inputSize * cfg.outputSize) ∧
    (∀ n ∈ (initializeNetwork cfg rngB rngW).1,
      (n.layer = 0 → n.type = .input) ∧
      (n.layer = (layerSizes cfg).length - 1 → n.type = .output) ∧
      (n.layer ≠ 0 → n.layer ≠ (layerSizes cfg).length - 1 → n.type = .hidden)) := by
  have hconn : (initializeNetwork cfg rngB rngW).2.length = adjProdSum (layerSizes cfg) := by
    rw [initializeNetwork_snd_length, connPairs_length, ← rangeSum_adjProdSum (layerSizes cfg)]
    congr 1
    apply List.map_congr_left
    intro l _
    rw [buildNodes_nodesAtLayer, buildNodes_nodesAtLayer]
  refine ⟨?_, hconn, ?_, ?_⟩
  · rw [initializeNetwork_fst, buildNodes, buildNodesGo_length]
    simp [layerSizes]
    omega
  · intro hemp
    rw [hconn]
    simp [layerSizes, hemp, adjProdSum]
  · intro n hn
    rw [initializeNetwork_fst, buildNodes] at hn
    have hmem := buildNodesGo_mem rngB (layerSizes cfg).length (layerSizes cfg) 0 0 n hn
    obtain ⟨ht, _, hlt⟩ := hmem
    refine ⟨?_, ?_, ?_⟩
    · intro h0
      rw [ht, layerTypeOf, h0]
      simp
    · intro hlast
      rw [ht, layerTypeOf, hlast]
      have : (layerSizes cfg).length - 1 ≠ 0 := by
        simp only [layerSizes, List.length_cons, List.length_append]
        omega
      rw [if_neg this, if_pos rfl]
    · intro h0 hlast
      rw [ht, layerTypeOf, if_neg h0, if_neg hlast]

/-- Witness for C6 on a concrete configuration. -/
theorem C6_witness :
    ((0 : Nat) < wCfg.inputSize ∧ (0 : Nat) < wCfg.outputSize ∧
      (∀ h ∈ wCfg.hiddenLayers, 0 < h)) ∧
    ((initializeNetwork wCfg (fun _ => 0) (fun _ => 0)).1.length
        = wCfg.inputSize + wCfg.hiddenLayers.sum + wCfg.outputSize ∧
      (initializeNetwork wCfg (fun _ => 0) (fun _ => 0)).2.length
        = adjProdSum (layerSizes wCfg) ∧
      (wCfg.hiddenLayers = [] →
        (initializeNetwork wCfg (fun _ => 0) (fun _ => 0)).2.length
          = wCfg.inputSize * wCfg.outputSize) ∧
      (∀ n ∈ (initializeNetwork wCfg (fun _ => 0) (fun _ => 0)).1,
        (n.layer = 0 → n.type = .input) ∧
        (n.layer = (layerSizes wCfg).length - 1 → n.type = .output) ∧
        (n.layer ≠ 0 → n.layer ≠ (layerSizes wCfg).length - 1 → n.type = .hidden))) :=
  ⟨⟨by decide, by decide, by decide⟩,
    C6_topology_size wCfg (fun _ => 0) (fun _ => 0) (by decide) (by decide) (by decide)⟩

end TopologyLemmas

/-! ### C7: full bipartite layering -/

section BipartiteClaims

variable {α : Type} [LinearOrderedField α]

theorem mem_nodesAtLayer (ns : List (NetworkNode α)) (l : Nat) (n : NetworkNode α) :
    n ∈ nodesAtLayer ns l ↔ n ∈ ns ∧ n.layer = l := by
  simp [nodesAtLayer]

theorem connPairs_mem (ns : List (NetworkNode α)) (L : Nat)
    (p : NetworkNode α × NetworkNode α) :
    p ∈ connPairs ns L ↔
      ∃ l, l < L - 1 ∧ p.1 ∈ ns ∧ p.1.layer = l ∧ p.2 ∈ ns ∧ p.2.layer = l + 1 := by
  constructor
  · intro hp
    rw [connPairs] at hp
    obtain ⟨l, hl, hrest⟩ := List.mem_flatMap.mp hp
    obtain ⟨f, hf, hmap⟩ := List.mem_flatMap.mp hrest
    obtain ⟨t, ht, hpt⟩ := List.mem_map.mp hmap
    obtain ⟨hfm, hfl⟩ := (mem_nodesAtLayer ns l f).mp hf
    obtain ⟨htm, htl⟩ := (mem_nodesAtLayer ns (l + 1) t).mp ht
    refine ⟨l, List.mem_range.mp hl, ?_⟩
    rw [← hpt]
    exact ⟨hfm, hfl, htm, htl⟩
  · rintro ⟨l, hl, h1m, h1l, h2m, h2l⟩
    rw [connPairs]
    apply List.mem_flatMap.mpr
    refine ⟨l, List.mem_range.mpr hl, ?_⟩
    apply List.mem_flatMap.mpr
    refine ⟨p.1, (mem_nodesAtLayer ns l p.1).mpr ⟨h1m, h1l⟩, ?_⟩
    apply List.mem_map.mpr
    exact ⟨p.2, (mem_nodesAtLayer ns (l + 1) p.2).mpr ⟨h2m, h2l⟩, rfl⟩

theorem initializeNetwork_snd_endpoints (cfg : NetworkConfig α) (rngB rngW : Nat → α)
    (c : NetworkConnection α) (hc : c ∈ (initializeNetwork cfg rngB rngW).2) :
    ∃ p ∈ connPairs (buildNodes rngB (layerSizes cfg)) (layerSizes cfg).length,
      c.fromNodeId = p.1.id ∧ c.toNodeId = p.2.id := by
  simp only [initializeNetwork] at hc
  obtain ⟨jc, hjc, hcjc⟩ := List.mem_map.mp hc
  refine ⟨jc.2, ?_, ?_, ?_⟩
  · have : jc.2 ∈ (connPairs (buildNodes rngB (layerSizes cfg)) (layerSizes cfg).length).enum.map
        Prod.snd := List.mem_map_of_mem Prod.snd hjc
    rwa [List.enum_map_snd] at this
  · rw [← hcjc]
  · rw [← hcjc]

theorem initializeNetwork_snd_exists (cfg : NetworkConfig α) (rngB rngW : Nat → α)
    (p : NetworkNode α × NetworkNode α)
    (hp : p ∈ connPairs (buildNodes rngB (layerSizes cfg)) (layerSizes cfg).length) :
    ∃ c ∈ (initializeNetwork cfg rngB rngW).2,
      c.fromNodeId = p.1.id ∧ c.toNodeId = p.2.id := by
  have hp2 : p ∈ (connPairs (buildNodes rngB (layerSizes cfg)) (layerSizes cfg).length).enum.map
      Prod.snd := by
    rw [List.enum_map_snd]
    exact hp
  obtain ⟨jc, hjc, hsnd⟩ := List.mem_map.mp hp2
  refine ⟨_, List.mem_map_of_mem _ hjc, ?_, ?_⟩
  · simp only [initializeNetwork]
    rw [hsnd]
  · simp only [initializeNetwork]
    rw [hsnd]

theorem buildNodes_nodup_id (rngB : Nat → α) (sizes : List Nat) :
    ((buildNodes rngB sizes).map (fun n => n.id)).Nodup := by
  rw [buildNodes]
  exact buildNodesGo_nodup_id rngB sizes.length sizes 0 0

theorem buildNodes_id_inj (rngB : Nat → α) (sizes : List Nat)
    (a b : NetworkNode α) (ha : a ∈ buildNodes rngB sizes) (hb : b ∈ buildNodes rngB sizes)
    (hid : a.id = b.id) : a = b :=
  List.inj_on_of_nodup_map (buildNodes_nodup_id rngB sizes) ha hb hid

theorem buildNodes_layer_lt (rngB : Nat → α) (sizes : List Nat)
    (n : NetworkNode α) (hn : n ∈ buildNodes rngB sizes) : n.layer < sizes.length := by
  rw [buildNodes] at hn
  have := (buildNodesGo_mem rngB sizes.length sizes 0 0 n hn).2.2
  omega

theorem bipartite_initializeNetwork (cfg : NetworkConfig α) (rngB rngW : Nat → α) :
    Bipartite (initializeNetwork cfg rngB rngW).1 (initializeNetwork cfg rngB rngW).2 := by
  rw [initializeNetwork_fst]
  intro a ha b hb
  constructor
  · rintro ⟨c, hc, hf, ht⟩
    obtain ⟨p, hp, hpf, hpt⟩ := initializeNetwork_snd_endpoints cfg rngB rngW c hc
    obtain ⟨l, _, h1m, h1l, h2m, h2l⟩ := (connPairs_mem _ _ p).mp hp
    have hpa : p.1 = a := by
      apply buildNodes_id_inj rngB (layerSizes cfg) p.1 a h1m ha
      rw [← hpf, hf]
    have hpb : p.2 = b := by
      apply buildNodes_id_inj rngB (layerSizes cfg) p.2 b h2m hb
      rw [← hpt, ht]
    rw [← hpa, ← hpb, h1l, h2l]
  · intro hlayer
    have hbl : b.layer < (layerSizes cfg).length := buildNodes_layer_lt rngB (layerSizes cfg) b hb
    have hp : (a, b) ∈ connPairs (buildNodes rngB (layerSizes cfg)) (layerSizes cfg).length := by
      apply (connPairs_mem _ _ (a, b)).mpr
      exact ⟨a.layer, by omega, ha, rfl, hb, hlayer⟩
    obtain ⟨c, hc, hcf, hct⟩ := initializeNetwork_snd_exists cfg rngB rngW (a, b) hp
    exact ⟨c, hc, hcf, hct⟩

theorem forall₂_mem_left {β γ : Type} {R : β → γ → Prop} {l1 : List β} {l2 : List γ}
    (h : List.Forall₂ R l1 l2) {a : β} (ha : a ∈ l1) : ∃ b ∈ l2, R a b := by
  induction h with
  | nil => exact absurd ha (by simp)
  | cons hR hrest ih =>
    rcases List.mem_cons.mp ha with heq | hmem
    · exact ⟨_, List.mem_cons_self _ _, heq ▸ hR⟩
    · obtain ⟨b, hb, hRb⟩ := ih hmem
      exact ⟨b, List.mem_cons_of_mem _ hb, hRb⟩

theorem forall₂_mem_right {β γ : Type} {R : β → γ → Prop} {l1 : List β} {l2 : List γ}
    (h : List.Forall₂ R l1 l2) {b : γ} (hb : b ∈ l2) : ∃ a ∈ l1, R a b := by
  induction h with
  | nil => exact absurd hb (by simp)
  | cons hR hrest ih =>
    rcases List.mem_cons.mp hb with heq | hmem
    · exact ⟨_, List.mem_cons_self _ _, heq ▸ hR⟩
    · obtain ⟨a, ha, hRa⟩ := ih hmem
      exact ⟨a, List.mem_cons_of_mem _ ha, hRa⟩

theorem bipartite_transfer (ns ns2 : List (NetworkNode α))
    (cs cs2 : List (NetworkConnection α))
    (hn : List.Forall₂ (fun a b => b.id = a.id ∧ b.layer = a.layer) ns ns2)
    (hc : List.Forall₂ ConnKeepsEndpoints cs cs2)
    (hB : Bipartite ns cs) : Bipartite ns2 cs2 := by
  intro a2 ha2 b2 hb2
  obtain ⟨a, ha, hRa⟩ := forall₂_mem_right hn ha2
  obtain ⟨b, hb, hRb⟩ := forall₂_mem_right hn hb2
  have haid := hRa.1
  have hal := hRa.2
  have hbid := hRb.1
  have hbl := hRb.2
  constructor
  · rintro ⟨c2, hc2, hf, ht⟩
    obtain ⟨c, hcm, hck⟩ := forall₂_mem_right hc hc2
    have : ∃ c ∈ cs, c.fromNodeId = a.id ∧ c.toNodeId = b.id := by
      refine ⟨c, hcm, ?_, ?_⟩
      · rw [← hck.2.1, hf, haid]
      · rw [← hck.2.2, ht, hbid]
    have hL := (hB a ha b hb).mp this
    rw [hbl, hal, hL]
  · intro hlayer
    have hL : b.layer = a.layer + 1 := by rw [← hbl, ← hal, hlayer]
    obtain ⟨c, hcm, hcf, hct⟩ := (hB a ha b hb).mpr hL
    obtain ⟨c2, hc2m, hck⟩ := forall₂_mem_left hc hcm
    refine ⟨c2, hc2m, ?_, ?_⟩
    · rw [hck.2.1, hcf, haid]
    · rw [hck.2.2, hct, hbid]

/-- C7: in every constructed network a connection from `a` to `b` exists
iff `b`'s layer is exactly `a`'s layer plus one (full bipartite adjacency,
no skip or intra-layer connections), and both `forward` and `backward`
preserve this invariant; `backward` keeps the connection list's length and
every connection's identity and endpoints, and `forward` does not touch the
connection list at all. -/
theorem C7_bipartite_invariant (cfg : NetworkConfig α) (rngB rngW : Nat → α) :
    Bipartite (initializeNetwork cfg rngB rngW).1 (initializeNetwork cfg rngB rngW).2 ∧
    (∀ (ops : ScalarOps α) (ns : List (NetworkNode α)) (cs : List (NetworkConnection α))
      (inputs : List α) (ns2 : List (NetworkNode α)) (outs : List α),
      Bipartite ns cs → forward ops cfg ns cs inputs = some (ns2, outs) →
        Bipartite ns2 cs) ∧
    (∀ (ns : List (NetworkNode α)) (cs : List (NetworkConnection α)) (targets : List α)
      (ns2 : List (NetworkNode α)) (cs2 : List (NetworkConnection α)),
      Bipartite ns cs → backward cfg ns cs targets = some (ns2, cs2) →
        Bipartite ns2 cs2 ∧ cs2.length = cs.length ∧
          List.Forall₂ ConnKeepsEndpoints cs cs2) := by
  refine ⟨bipartite_initializeNetwork cfg rngB rngW, ?_, ?_⟩
  · intro ops ns cs inputs ns2 outs hB h
    have hn := forward_node_frame ops cfg ns cs inputs ns2 outs h
    apply bipartite_transfer ns ns2 cs cs
    · exact hn.imp (fun a b hEA => ⟨hEA.1, hEA.2.2.2.1⟩)
    · exact List.forall₂_same.mpr (fun c _ => ⟨rfl, rfl, rfl⟩)
    · exact hB
  · intro ns cs targets ns2 cs2 hB h
    have hn := backward_node_frame cfg ns cs targets ns2 cs2 h
    have hc := backward_conn_frame cfg ns cs targets ns2 cs2 h
    refine ⟨?_, ?_, hc⟩
    · exact bipartite_transfer ns ns2 cs cs2
        (hn.imp (fun a b hEE => ⟨hEE.1, hEE.2.2.2.1⟩)) hc hB
    · exact hc.length_eq.symm

/-- Witness for C7: the constructed concrete network is bipartite, and both
preservation conjuncts applied to a concrete run. -/
theorem C7_witness :
    Bipartite (initializeNetwork wCfg (fun _ => 0) (fun _ => 0)).1
        (initializeNetwork wCfg (fun _ => 0) (fun _ => 0)).2 ∧
    (Bipartite wNodes wConns ∧
      ∃ r, forward wOps wCfg wNodes wConns [1, 1] = some r ∧ Bipartite r.1 wConns) ∧
    (∃ p, backward wCfg wNodes wConns [1] = some p ∧ Bipartite p.1 p.2 ∧
      p.2.length = wConns.length) :=
  ⟨(C7_bipartite_invariant wCfg (fun _ => 0) (fun _ => 0)).1,
    ⟨by unfold Bipartite; decide, _, rfl,
      (C7_bipartite_invariant wCfg (fun _ => 0) (fun _ => 0)).2.1 wOps wNodes wConns [1, 1] _ _
        (by unfold Bipartite; decide) rfl⟩,
    _, rfl,
    ((C7_bipartite_invariant wCfg (fun _ => 0) (fun _ => 0)).2.2 wNodes wConns [1] _ _
      (by unfold Bipartite; decide) rfl).1,
    ((C7_bipartite_invariant wCfg (fun _ => 0) (fun _ => 0)).2.2 wNodes wConns [1] _ _
      (by unfold Bipartite; decide) rfl).2.1⟩

end BipartiteClaims

/-! ### Dataflow development for `forward` and `backward` -/

section DataflowCore

variable {α : Type} [LinearOrderedField α]

theorem mem_of_getElem? {β : Type} {l : List β} {i : Nat} {a : β} (h : l[i]? = some a) :
    a ∈ l := by
  obtain ⟨hlt, heq⟩ := List.getElem?_eq_some.mp h
  exact heq ▸ List.getElem_mem hlt

theorem shadows_refl (ns : List (NetworkNode α)) : Shadows ns ns := by
  refine ⟨rfl, ?_⟩
  intro j a b ha hb
  have : a = b := Option.some_inj.mp (ha ▸ hb)
  rw [this]
  exact ⟨rfl, rfl, rfl, rfl⟩

theorem shadows_get (ns st : List (NetworkNode α)) (h : Shadows ns st)
    (j : Nat) (a : NetworkNode α) (ha : ns[j]? = some a) :
    ∃ b, st[j]? = some b ∧ b.id = a.id ∧ b.layer = a.layer ∧ b.type = a.type ∧ b.bias = a.bias := by
  have hlt : j < st.length := by
    rw [h.1]
    exact (List.getElem?_eq_some.mp ha).1
  have hb : st[j]? = some st[j] := List.getElem?_eq_getElem hlt
  exact ⟨st[j], hb, h.2 j a st[j] ha hb⟩

theorem shadows_get_rev (ns st : List (NetworkNode α)) (h : Shadows ns st)
    (j : Nat) (b : NetworkNode α) (hb : st[j]? = some b) :
    ∃ a, ns[j]? = some a ∧ b.id = a.id ∧ b.layer = a.layer ∧ b.type = a.type ∧ b.bias = a.bias := by
  have hlt : j < ns.length := by
    rw [← h.1]
    exact (List.getElem?_eq_some.mp hb).1
  have ha : ns[j]? = some ns[j] := List.getElem?_eq_getElem hlt
  exact ⟨ns[j], ha, h.2 j ns[j] b ha hb⟩

theorem nodup_pos_unique {β γ : Type} (g : β → γ) (l : List β)
    (hnd : (l.map g).Nodup) (j q : Nat) (a b : β)
    (hj : l[j]? = some a) (hq : l[q]? = some b) (hg : g a = g b) : j = q := by
  have hjlt : j < (l.map g).length := by
    rw [List.length_map]
    exact (List.getElem?_eq_some.mp hj).1
  apply List.getElem?_inj hjlt hnd
  rw [List.getElem?_map, List.getElem?_map, hj, hq]
  simp [hg]

theorem find?_unique_pos {β : Type} (p : β → Bool) :
    ∀ (l : List β) (q : Nat) (b : β), l[q]? = some b → p b = true →
      (∀ (j : Nat) (c : β), l[j]? = some c → p c = true → j = q) →
      l.find? p = some b := by
  intro l
  induction l with
  | nil => intro q b hq; simp at hq
  | cons a t ih =>
    intro q b hq hpb huniq
    by_cases hpa : p a = true
    · have h0 : (0 : Nat) = q := huniq 0 a (by simp) hpa
      rw [← h0] at hq
      simp only [List.getElem?_cons_zero, Option.some.injEq] at hq
      rw [List.find?_cons_of_pos _ hpa, hq]
    · have hq0 : q ≠ 0 := by
        intro h0
        rw [h0] at hq
        simp only [List.getElem?_cons_zero, Option.some.injEq] at hq
        exact hpa (hq ▸ hpb)
      obtain ⟨q2, rfl⟩ := Nat.exists_eq_succ_of_ne_zero hq0
      rw [List.find?_cons_of_neg _ hpa]
      have hqt : t[q2]? = some b := by
        simpa only [List.getElem?_cons_succ] using hq
      apply ih q2 b hqt hpb
      intro j c hj hpc
      have hcons : (a :: t)[j + 1]? = some c := by
        simpa only [List.getElem?_cons_succ] using hj
      have := huniq (j + 1) c hcons hpc
      omega

/-- In a state shadowing a well-formed `ns`, looking a node up by the id of
the `ns`-node at position `q` finds exactly the state's node at position
`q`. -/
theorem findNode?_shadows (ns st : List (NetworkNode α))
    (hnd : (ns.map (fun n => n.id)).Nodup) (hsh : Shadows ns st)
    (q : Nat) (f : NetworkNode α) (hq : ns[q]? = some f) :
    ∃ g, st[q]? = some g ∧ findNode? st f.id = some g ∧
      g.id = f.id ∧ g.layer = f.layer ∧ g.type = f.type ∧ g.bias = f.bias := by
  obtain ⟨g, hg, hgid, hgl, hgt, hgb⟩ := shadows_get ns st hsh q f hq
  refine ⟨g, hg, ?_, hgid, hgl, hgt, hgb⟩
  apply find?_unique_pos _ st q g hg (by simp [hgid])
  intro j c hj hpc
  obtain ⟨a, ha, haid, _, _, _⟩ := shadows_get_rev ns st hsh j c hj
  apply nodup_pos_unique (fun n => n.id) ns hnd j q a f ha hq
  rw [← haid]
  simpa using hpc

theorem hyb_getElem {β : Type} (g : β → β) :
    ∀ (ns : List β) (i j : Nat),
      (hyb g ns i)[j]? = if j < i then (ns[j]?).map g else ns[j]? := by
  intro ns
  induction ns with
  | nil => intro i j; simp [hyb]
  | cons a t ih =>
    intro i j
    cases i with
    | zero => simp [hyb]
    | succ i' =>
      have hcons : hyb g (a :: t) (i' + 1) = g a :: hyb g t i' := by
        simp [hyb]
      rw [hcons]
      cases j with
      | zero => simp
      | succ j' =>
        simp only [List.getElem?_cons_succ]
        rw [ih i' j']
        by_cases hj : j' < i'
        · rw [if_pos hj, if_pos (by omega)]
        · rw [if_neg hj, if_neg (by omega)]

theorem hyb_zero {β : Type} (g : β → β) (ns : List β) : hyb g ns 0 = ns := by
  simp [hyb]

theorem hyb_full {β : Type} (g : β → β) (ns : List β) : hyb g ns ns.length = ns.map g := by
  simp [hyb]

theorem hyb_set {β : Type} (g : β → β) :
    ∀ (ns : List β) (i : Nat) (b : β), ns[i]? = some b →
      (hyb g ns i).set i (g b) = hyb g ns (i + 1) := by
  intro ns
  induction ns with
  | nil => intro i b hb; simp at hb
  | cons a t ih =>
    intro i b hb
    cases i with
    | zero =>
      simp only [List.getElem?_cons_zero, Option.some.injEq] at hb
      subst hb
      simp [hyb]
    | succ i2 =>
      simp only [List.getElem?_cons_succ] at hb
      have hcons : hyb g (a :: t) (i2 + 1) = g a :: hyb g t i2 := by simp [hyb]
      have hcons2 : hyb g (a :: t) (i2 + 2) = g a :: hyb g t (i2 + 1) := by
        simp [hyb, List.take_succ_cons]
      rw [hcons, hcons2, List.set_cons_succ, ih i2 b hb]

theorem seqGo_step {β : Type} (upd : List β → β → Option β) (fuel i : Nat) (st : List β)
    (b b2 : β) (hb : st[i]? = some b) (hu : upd st b = some b2) :
    seqGo upd (fuel + 1) i st = seqGo upd fuel (i + 1) (st.set i b2) := by
  rw [seqGo, hb]
  have hinner : (match upd st b with
    | none => none
    | some b3 => seqGo upd fuel (i + 1) (st.set i b3)) = seqGo upd fuel (i + 1) (st.set i b2) := by
    rw [hu]
  exact hinner

theorem seqGo_map {β : Type} (upd : List β → β → Option β) (g : β → β) (ns : List β)
    (H : ∀ (i : Nat) (b : β), ns[i]? = some b → upd (hyb g ns i) b = some (g b)) :
    seqUpdate upd ns = some (ns.map g) := by
  have aux : ∀ (fuel i : Nat), fuel + i = ns.length →
      seqGo upd fuel i (hyb g ns i) = some (ns.map g) := by
    intro fuel
    induction fuel with
    | zero =>
      intro i hi
      have : i = ns.length := by omega
      rw [this, hyb_full, seqGo]
    | succ fuel ih =>
      intro i hi
      have hlt : i < ns.length := by omega
      have hb : ns[i]? = some ns[i] := List.getElem?_eq_getElem hlt
      have hget : (hyb g ns i)[i]? = some ns[i] := by
        rw [hyb_getElem, if_neg (by omega)]
        exact hb
      rw [seqGo_step upd fuel i (hyb g ns i) ns[i] (g ns[i]) hget (H i ns[i] hb)]
      rw [hyb_set g ns i ns[i] hb]
      exact ih (i + 1) (by omega)
  have h0 := aux ns.length 0 (by omega)
  rw [hyb_zero] at h0
  rw [seqUpdate]
  exact h0

end DataflowCore

section ForwardSpec

variable {α : Type} [LinearOrderedField α]

theorem hyb_length {β : Type} (g : β → β) (ns : List β) (i : Nat) :
    (hyb g ns i).length = ns.length := by
  simp only [hyb, List.length_append, List.length_map, List.length_take, List.length_drop]
  omega

theorem shadows_map (ns st : List (NetworkNode α)) (hsh : Shadows ns st)
    (g : NetworkNode α → NetworkNode α)
    (hg : ∀ b, (g b).id = b.id ∧ (g b).layer = b.layer ∧ (g b).type = b.type ∧
      (g b).bias = b.bias) : Shadows ns (st.map g) := by
  refine ⟨by rw [List.length_map]; exact hsh.1, ?_⟩
  intro j a b2 ha hb2
  rw [List.getElem?_map] at hb2
  cases hb : st[j]? with
  | none => rw [hb] at hb2; simp at hb2
  | some b =>
    rw [hb] at hb2
    have hgb : g b = b2 := Option.some_inj.mp hb2
    obtain ⟨h1, h2, h3, h4⟩ := hsh.2 j a b ha hb
    obtain ⟨g1, g2, g3, g4⟩ := hg b
    rw [← hgb]
    exact ⟨g1.trans h1, g2.trans h2, g3.trans h3, g4.trans h4⟩

theorem shadows_hyb (ns st : List (NetworkNode α)) (hsh : Shadows ns st)
    (g : NetworkNode α → NetworkNode α)
    (hg : ∀ b, (g b).id = b.id ∧ (g b).layer = b.layer ∧ (g b).type = b.type ∧
      (g b).bias = b.bias) (i : Nat) : Shadows ns (hyb g st i) := by
  refine ⟨by rw [hyb_length]; exact hsh.1, ?_⟩
  intro j a b2 ha hb2
  rw [hyb_getElem] at hb2
  by_cases hj : j < i
  · rw [if_pos hj] at hb2
    cases hb : st[j]? with
    | none => rw [hb] at hb2; simp at hb2
    | some b =>
      rw [hb] at hb2
      have hgb : g b = b2 := Option.some_inj.mp hb2
      obtain ⟨h1, h2, h3, h4⟩ := hsh.2 j a b ha hb
      obtain ⟨g1, g2, g3, g4⟩ := hg b
      rw [← hgb]
      exact ⟨g1.trans h1, g2.trans h2, g3.trans h3, g4.trans h4⟩
  · rw [if_neg hj] at hb2
    exact hsh.2 j a b2 ha hb2

theorem agreeOff_map (m : Nat) (ns st : List (NetworkNode α)) (hsh : Shadows ns st)
    (g : NetworkNode α → NetworkNode α) (hfix : ∀ b, b.layer ≠ m → g b = b) :
    AgreeOff m ns st (st.map g) := by
  intro j a b b2 ha hb hb2 hlay
  rw [List.getElem?_map, hb] at hb2
  have hgb : g b = b2 := Option.some_inj.mp hb2
  have hbl : b.layer = a.layer := (hsh.2 j a b ha hb).2.1
  rw [← hgb, hfix b (by rw [hbl]; exact hlay)]

theorem agreeOff_hyb (m : Nat) (ns st : List (NetworkNode α)) (hsh : Shadows ns st)
    (g : NetworkNode α → NetworkNode α) (hfix : ∀ b, b.layer ≠ m → g b = b) (i : Nat) :
    AgreeOff m ns st (hyb g st i) := by
  intro j a b b2 ha hb hb2 hlay
  rw [hyb_getElem] at hb2
  by_cases hj : j < i
  · rw [if_pos hj, hb] at hb2
    have hgb : g b = b2 := Option.some_inj.mp hb2
    have hbl : b.layer = a.layer := (hsh.2 j a b ha hb).2.1
    rw [← hgb, hfix b (by rw [hbl]; exact hlay)]
  · rw [if_neg hj, hb] at hb2
    exact (Option.some_inj.mp hb2).symm ▸ rfl

theorem sumIncoming_congr (st st2 : List (NetworkNode α)) :
    ∀ (l : List (NetworkConnection α)),
      (∀ c ∈ l, ∃ g g2, findNode? st c.fromNodeId = some g ∧
        findNode? st2 c.fromNodeId = some g2 ∧ g2.activation = g.activation) →
      ∀ s : α, sumIncoming st2 l s = sumIncoming st l s ∧ (sumIncoming st l s).isSome := by
  intro l
  induction l with
  | nil => intro _ s; exact ⟨rfl, by simp [sumIncoming]⟩
  | cons c rest ih =>
    intro h s
    obtain ⟨g, g2, hgf, hgf2, hact⟩ := h c (List.mem_cons_self c rest)
    have e1 : sumIncoming st2 (c :: rest) s
        = sumIncoming st2 rest (s + g2.activation * c.weight) := by
      rw [sumIncoming, hgf2]
    have e2 : sumIncoming st (c :: rest) s
        = sumIncoming st rest (s + g.activation * c.weight) := by
      rw [sumIncoming, hgf]
    have ihr := ih (fun c2 hc2 => h c2 (List.mem_cons_of_mem _ hc2))
      (s + g.activation * c.weight)
    refine ⟨?_, ?_⟩
    · rw [e1, e2, hact]
      exact ihr.1
    · rw [e2]
      exact ihr.2

theorem nodeSum_congr (ns : List (NetworkNode α)) (cs : List (NetworkConnection α))
    (hWF : WellFormed ns cs) (m : Nat) (st st2 : List (NetworkNode α))
    (hst : Shadows ns st) (hst2 : Shadows ns st2) (hagree : AgreeOff m ns st st2)
    (q : Nat) (a : NetworkNode α) (hq : ns[q]? = some a) (hlay : a.layer ≠ m + 1)
    (b b2 : NetworkNode α) (hb : st[q]? = some b) (hb2 : st2[q]? = some b2) :
    nodeSum st2 cs b2 = nodeSum st cs b ∧ (nodeSum st cs b).isSome := by
  have hbid : b.id = a.id := (hst.2 q a b hq hb).1
  have hbbias : b.bias = a.bias := (hst.2 q a b hq hb).2.2.2
  have hb2id : b2.id = a.id := (hst2.2 q a b2 hq hb2).1
  have hb2bias : b2.bias = a.bias := (hst2.2 q a b2 hq hb2).2.2.2
  rw [nodeSum, nodeSum, hbid, hb2id, hbbias, hb2bias]
  apply sumIncoming_congr st st2
  intro c hc
  have hcmem : c ∈ cs ∧ c.toNodeId = a.id := by
    have := List.mem_filter.mp hc
    exact ⟨this.1, by simpa using this.2⟩
  obtain ⟨f, hf, t, ht, hfid, htid, hlt⟩ := hWF.2.2.2.2 c hcmem.1
  have hta : t = a := by
    apply List.inj_on_of_nodup_map hWF.1 ht (mem_of_getElem? hq)
    rw [htid, hcmem.2]
  subst hta
  obtain ⟨qf, hqf⟩ := List.mem_iff_getElem?.mp hf
  obtain ⟨g, hgq, hgfind, _, _, _, _⟩ := findNode?_shadows ns st hWF.1 hst qf f hqf
  obtain ⟨g2, hgq2, hgfind2, _, _, _, _⟩ := findNode?_shadows ns st2 hWF.1 hst2 qf f hqf
  refine ⟨g, g2, ?_, ?_, ?_⟩
  · rw [← hfid]; exact hgfind
  · rw [← hfid]; exact hgfind2
  · have hfl : f.layer ≠ m := by omega
    exact hagree qf f g g2 hqf hgq hgq2 hfl

theorem fwdGF_shape (ops : ScalarOps α) (sel : String) (cs : List (NetworkConnection α))
    (st : List (NetworkNode α)) (m : Nat) (b : NetworkNode α) :
    (fwdGF ops sel cs st m b).id = b.id ∧ (fwdGF ops sel cs st m b).layer = b.layer ∧
      (fwdGF ops sel cs st m b).type = b.type ∧ (fwdGF ops sel cs st m b).bias = b.bias := by
  unfold fwdGF
  by_cases hb : b.layer = m
  · rw [if_pos hb]; exact ⟨rfl, rfl, rfl, rfl⟩
  · rw [if_neg hb]; exact ⟨rfl, rfl, rfl, rfl⟩

theorem fwdGF_fix (ops : ScalarOps α) (sel : String) (cs : List (NetworkConnection α))
    (st : List (NetworkNode α)) (m : Nat) (b : NetworkNode α) (hb : b.layer ≠ m) :
    fwdGF ops sel cs st m b = b := by
  unfold fwdGF
  rw [if_neg hb]

theorem fwdLayers_invariant (ops : ScalarOps α) (sel : String)
    (ns : List (NetworkNode α)) (cs : List (NetworkConnection α))
    (hWF : WellFormed ns cs) (ns0 : List (NetworkNode α)) (hsh0 : Shadows ns ns0) :
    ∀ k : Nat, ∃ stk, fwdLayers ops sel cs k ns0 = some stk ∧ Shadows ns stk ∧
      (∀ (j : Nat) (a b0 b : NetworkNode α), ns[j]? = some a → ns0[j]? = some b0 →
        stk[j]? = some b →
        ((a.layer = 0 ∨ k < a.layer) → b = b0) ∧
        (1 ≤ a.layer → a.layer ≤ k →
          ∃ s, nodeSum stk cs b = some s ∧ b.activation = activate ops sel s)) := by
  intro k
  induction k with
  | zero =>
    refine ⟨ns0, rfl, hsh0, ?_⟩
    intro j a b0 b ha hb0 hb
    constructor
    · intro _
      exact (Option.some_inj.mp (hb0 ▸ hb)).symm
    · intro h1 h0
      omega
  | succ k ih =>
    obtain ⟨stk, hst, hshk, hinv⟩ := ih
    have H : ∀ (i : Nat) (b : NetworkNode α), stk[i]? = some b →
        fwdUpd ops sel cs (k + 1) (hyb (fwdGF ops sel cs stk (k + 1)) stk i) b
          = some (fwdGF ops sel cs stk (k + 1) b) := by
      intro i b hb
      by_cases hbl : b.layer = k + 1
      · obtain ⟨a, ha, _, hal, _, _⟩ := shadows_get_rev ns stk hshk i b hb
        have hhybi : (hyb (fwdGF ops sel cs stk (k + 1)) stk i)[i]? = some b := by
          rw [hyb_getElem, if_neg (by omega)]
          exact hb
        have hcongr := nodeSum_congr ns cs hWF (k + 1) stk
          (hyb (fwdGF ops sel cs stk (k + 1)) stk i) hshk
          (shadows_hyb ns stk hshk _ (fwdGF_shape ops sel cs stk (k + 1)) i)
          (agreeOff_hyb (k + 1) ns stk hshk _
            (fun b3 hb3 => fwdGF_fix ops sel cs stk (k + 1) b3 hb3) i)
          i a ha (by omega) b b hb hhybi
        obtain ⟨s, hs⟩ := Option.isSome_iff_exists.mp hcongr.2
        rw [fwdUpd, if_pos hbl, hcongr.1, hs]
        unfold fwdGF
        rw [if_pos hbl, hs]
        rfl
      · rw [fwdUpd, if_neg hbl, fwdGF_fix ops sel cs stk (k + 1) b hbl]
    have htot : fwdLayers ops sel cs (k + 1) ns0
        = some (stk.map (fwdGF ops sel cs stk (k + 1))) := by
      rw [fwdLayers, hst]
      exact seqGo_map (fwdUpd ops sel cs (k + 1)) (fwdGF ops sel cs stk (k + 1)) stk H
    refine ⟨stk.map (fwdGF ops sel cs stk (k + 1)), htot,
      shadows_map ns stk hshk _ (fwdGF_shape ops sel cs stk (k + 1)), ?_⟩
    intro j a b0 b1 ha hb0 hb1
    have hb1' := hb1
    rw [List.getElem?_map] at hb1'
    cases hbj : stk[j]? with
    | none => rw [hbj] at hb1'; simp at hb1'
    | some b =>
      rw [hbj] at hb1'
      have hgb : fwdGF ops sel cs stk (k + 1) b = b1 := Option.some_inj.mp hb1'
      have hbl : b.layer = a.layer := (hshk.2 j a b ha hbj).2.1
      constructor
      · intro hcase
        have hne : a.layer ≠ k + 1 := by omega
        have hfix : fwdGF ops sel cs stk (k + 1) b = b :=
          fwdGF_fix ops sel cs stk (k + 1) b (by omega)
        have hbb0 : b = b0 := (hinv j a b0 b ha hb0 hbj).1 (by omega)
        rw [← hgb, hfix, hbb0]
      · intro h1 h2
        by_cases hlayk : a.layer = k + 1
        · have hcongr := nodeSum_congr ns cs hWF (k + 1) stk
            (stk.map (fwdGF ops sel cs stk (k + 1))) hshk
            (shadows_map ns stk hshk _ (fwdGF_shape ops sel cs stk (k + 1)))
            (agreeOff_map (k + 1) ns stk hshk _
              (fun b3 hb3 => fwdGF_fix ops sel cs stk (k + 1) b3 hb3))
            j a ha (by omega) b b1 hbj hb1
          obtain ⟨s, hs⟩ := Option.isSome_iff_exists.mp hcongr.2
          refine ⟨s, by rw [hcongr.1]; exact hs, ?_⟩
          rw [← hgb]
          unfold fwdGF
          rw [if_pos (by omega), hs]
          rfl
        · have hfix : fwdGF ops sel cs stk (k + 1) b = b :=
            fwdGF_fix ops sel cs stk (k + 1) b (by omega)
          obtain ⟨s, hsum, hact⟩ := (hinv j a b0 b ha hb0 hbj).2 h1 (by omega)
          have hcongr := nodeSum_congr ns cs hWF (k + 1) stk
            (stk.map (fwdGF ops sel cs stk (k + 1))) hshk
            (shadows_map ns stk hshk _ (fwdGF_shape ops sel cs stk (k + 1)))
            (agreeOff_map (k + 1) ns stk hshk _
              (fun b3 hb3 => fwdGF_fix ops sel cs stk (k + 1) b3 hb3))
            j a ha (by omega) b b1 hbj hb1
          refine ⟨s, by rw [hcongr.1]; exact hsum, ?_⟩
          rw [← hgb, hfix]
          exact hact

end ForwardSpec

section ForwardClaims

variable {α : Type} [LinearOrderedField α]

theorem maxLayer_congr (l1 l2 : List (NetworkNode α))
    (h : List.Forall₂ (fun a b => b.layer = a.layer) l1 l2) : maxLayer l2 = maxLayer l1 := by
  induction h with
  | nil => rfl
  | cons hR hrest ih =>
    show max _ (maxLayer _) = max _ (maxLayer _)
    rw [hR, ih]

theorem le_maxLayer (ns : List (NetworkNode α)) : ∀ n ∈ ns, n.layer ≤ maxLayer ns := by
  induction ns with
  | nil => intro n hn; exact absurd hn (by simp)
  | cons a t ih =>
    intro n hn
    rcases List.mem_cons.mp hn with heq | hmem
    · rw [heq]
      exact le_max_left _ _
    · exact le_trans (ih n hmem) (le_max_right _ _)

theorem shadows_to_forall₂ (ns st : List (NetworkNode α)) (hsh : Shadows ns st) :
    List.Forall₂ (fun a b => b.id = a.id ∧ b.layer = a.layer ∧ b.type = a.type ∧
      b.bias = a.bias) ns st := by
  apply forall₂_of_pointwise ns st hsh.1
  intro j a ha
  obtain ⟨b, hb, h1, h2, h3, h4⟩ := shadows_get ns st hsh j a ha
  exact ⟨b, hb, h1, h2, h3, h4⟩

theorem filter_type_length (ns st : List (NetworkNode α))
    (h : List.Forall₂ (fun a b => b.type = a.type) ns st) (ty : NodeType) :
    (st.filter (fun n => n.type == ty)).length
      = (ns.filter (fun n => n.type == ty)).length := by
  induction h with
  | nil => rfl
  | cons hR hrest ih =>
    rename_i a b l1 l2
    simp only [List.filter_cons, hR]
    by_cases hc : (a.type == ty) = true
    · rw [if_pos hc, if_pos hc]
      simp [ih]
    · rw [if_neg hc, if_neg hc]
      exact ih

theorem shadows_setInputs (ns : List (NetworkNode α)) (inputs : List α) :
    Shadows ns (setInputs ns inputs) := by
  refine ⟨setInputs_length ns inputs, ?_⟩
  intro j a b ha hb
  obtain ⟨b2, hb2, hEA, _, _⟩ := setInputs_pointwise ns inputs j a ha
  have : b2 = b := Option.some_inj.mp (hb2 ▸ hb)
  rw [← this]
  exact ⟨hEA.1, hEA.2.2.2.1, hEA.2.2.2.2.2.1, hEA.2.2.2.2.1⟩

theorem forward_spec (ops : ScalarOps α) (cfg : NetworkConfig α)
    (ns : List (NetworkNode α)) (cs : List (NetworkConnection α)) (inputs : List α)
    (hWF : WellFormed ns cs) :
    ∃ ns2 outs, forward ops cfg ns cs inputs = some (ns2, outs) ∧
      Shadows ns ns2 ∧ outs = outputsOf ns2 ∧
      (∀ (j : Nat) (a b0 b : NetworkNode α), ns[j]? = some a →
        (setInputs ns inputs)[j]? = some b0 → ns2[j]? = some b →
        (a.layer = 0 → b = b0) ∧
        (a.layer ≠ 0 → ∃ s, nodeSum ns2 cs b = some s ∧
          b.activation = activate ops cfg.activationFunction s)) := by
  have hsh0 := shadows_setInputs ns inputs
  obtain ⟨stk, htot, hsh, hinv⟩ := fwdLayers_invariant ops cfg.activationFunction ns cs hWF
    (setInputs ns inputs) hsh0 (maxLayer (setInputs ns inputs))
  refine ⟨stk, outputsOf stk, ?_, hsh, rfl, ?_⟩
  · simp only [forward]
    rw [htot]
  · intro j a b0 b ha hb0 hb
    have hmaxeq : maxLayer (setInputs ns inputs) = maxLayer ns := by
      apply maxLayer_congr
      exact (shadows_to_forall₂ ns _ hsh0).imp (fun a b h => h.2.1)
    constructor
    · intro h0
      exact (hinv j a b0 b ha hb0 hb).1 (Or.inl h0)
    · intro hne
      have hle : a.layer ≤ maxLayer ns := le_maxLayer ns a (mem_of_getElem? ha)
      exact (hinv j a b0 b ha hb0 hb).2 (by omega) (by omega)

/-- C3: on a well-formed network, `forward` succeeds, the surviving node
list keeps ids, layers and kinds in order, the returned vector is the
output-typed nodes' activations in creation order with `outputSize`
entries, and every non-input node's final activation is the selected
activation function applied to its bias plus the weighted sum of its
source activations (the dataflow equations of the increasing-layer pass). -/
theorem C3_forward_evaluation (ops : ScalarOps α) (cfg : NetworkConfig α)
    (ns : List (NetworkNode α)) (cs : List (NetworkConnection α)) (inputs : List α)
    (hWF : WellFormed ns cs)
    (hin : inputs.length = (ns.filter (fun n => n.type == NodeType.input)).length)
    (hout : (ns.filter (fun n => n.type == NodeType.output)).length = cfg.outputSize) :
    ∃ ns2 outs, forward ops cfg ns cs inputs = some (ns2, outs) ∧
      List.Forall₂ (fun a b => b.id = a.id ∧ b.layer = a.layer ∧ b.type = a.type) ns ns2 ∧
      outs = outputsOf ns2 ∧ outs.length = cfg.outputSize ∧
      (∀ (j : Nat) (a b : NetworkNode α), ns[j]? = some a → ns2[j]? = some b →
        a.layer ≠ 0 →
        ∃ s, nodeSum ns2 cs b = some s ∧
          b.activation = activate ops cfg.activationFunction s) := by
  obtain ⟨ns2, outs, hfwd, hsh, houts, hinv⟩ := forward_spec ops cfg ns cs inputs hWF
  refine ⟨ns2, outs, hfwd, ?_, houts, ?_, ?_⟩
  · exact (shadows_to_forall₂ ns ns2 hsh).imp (fun a b h => ⟨h.1, h.2.1, h.2.2.1⟩)
  · rw [houts, outputsOf, List.length_map]
    rw [filter_type_length ns ns2 ((shadows_to_forall₂ ns ns2 hsh).imp
      (fun a b h => h.2.2.1)) NodeType.output]
    exact hout
  · intro j a b ha hb hne
    have hlt : j < (setInputs ns inputs).length := by
      rw [setInputs_length]
      exact (List.getElem?_eq_some.mp ha).1
    exact (hinv j a (setInputs ns inputs)[j] b ha (List.getElem?_eq_getElem hlt) hb).2 hne

/-- Witness for C3 on a concrete network. -/
theorem C3_witness :
    (WellFormed wNodes wConns ∧
      [(1 : ℚ), 2].length = (wNodes.filter (fun n => n.type == NodeType.input)).length ∧
      (wNodes.filter (fun n => n.type == NodeType.output)).length = wCfg.outputSize) ∧
    (∃ ns2 outs, forward wOps wCfg wNodes wConns [(1 : ℚ), 2] = some (ns2, outs) ∧
      List.Forall₂ (fun a b => b.id = a.id ∧ b.layer = a.layer ∧ b.type = a.type) wNodes ns2 ∧
      outs = outputsOf ns2 ∧ outs.length = wCfg.outputSize ∧
      (∀ (j : Nat) (a b : NetworkNode ℚ), wNodes[j]? = some a → ns2[j]? = some b →
        a.layer ≠ 0 →
        ∃ s, nodeSum ns2 wConns b = some s ∧
          b.activation = activate wOps wCfg.activationFunction s)) :=
  ⟨⟨by unfold WellFormed; decide, by decide, by decide⟩,
    C3_forward_evaluation wOps wCfg wNodes wConns [(1 : ℚ), 2]
      (by unfold WellFormed; decide) (by decide) (by decide)⟩

/-- C8: on a well-formed network `forward` always succeeds (never throws);
the i-th input-typed node receives `inputs[i]`, and a missing entry (input
vector shorter than the input layer) silently defaults to `0`. -/
theorem C8_forward_input_defaults (ops : ScalarOps α) (cfg : NetworkConfig α)
    (ns : List (NetworkNode α)) (cs : List (NetworkConnection α)) (inputs : List α)
    (hWF : WellFormed ns cs) :
    ∃ ns2 outs, forward ops cfg ns cs inputs = some (ns2, outs) ∧
      (∀ (j : Nat) (a b : NetworkNode α), ns[j]? = some a → ns2[j]? = some b →
        a.type = .input → b.activation = inputs.getD (inIdxAt ns j) 0) := by
  obtain ⟨ns2, outs, hfwd, hsh, _, hinv⟩ := forward_spec ops cfg ns cs inputs hWF
  refine ⟨ns2, outs, hfwd, ?_⟩
  intro j a b ha hb hty
  have hlay : a.layer = 0 := ((hWF.2.1 a (mem_of_getElem? ha)).mp hty)
  have hlt : j < (setInputs ns inputs).length := by
    rw [setInputs_length]
    exact (List.getElem?_eq_some.mp ha).1
  have hb0 : (setInputs ns inputs)[j]? = some (setInputs ns inputs)[j] :=
    List.getElem?_eq_getElem hlt
  have hbb0 : b = (setInputs ns inputs)[j] :=
    (hinv j a (setInputs ns inputs)[j] b ha hb0 hb).1 hlay
  obtain ⟨b2, hb2, _, _, hval⟩ := setInputs_pointwise ns inputs j a ha
  have : b2 = (setInputs ns inputs)[j] := Option.some_inj.mp (hb2 ▸ hb0)
  rw [hbb0, ← this]
  exact hval hty

/-- Witness for C8 on a concrete network with a too-short input vector. -/
theorem C8_witness :
    WellFormed wNodes wConns ∧
    (∃ ns2 outs, forward wOps wCfg wNodes wConns [(1 : ℚ)] = some (ns2, outs) ∧
      (∀ (j : Nat) (a b : NetworkNode ℚ), wNodes[j]? = some a → ns2[j]? = some b →
        a.type = .input → b.activation = [(1 : ℚ)].getD (inIdxAt wNodes j) 0)) :=
  ⟨by unfold WellFormed; decide,
    C8_forward_input_defaults wOps wCfg wNodes wConns [(1 : ℚ)]
      (by unfold WellFormed; decide)⟩

end ForwardClaims

/-! ### C2: the backward pass -/

section BackwardSpec

variable {α : Type} [LinearOrderedField α]

theorem sumOutgoing_congr (st st2 : List (NetworkNode α)) :
    ∀ (l : List (NetworkConnection α)),
      (∀ c ∈ l, ∃ g g2, findNode? st c.toNodeId = some g ∧
        findNode? st2 c.toNodeId = some g2 ∧ g2.error = g.error) →
      ∀ s : α, sumOutgoing st2 l s = sumOutgoing st l s ∧ (sumOutgoing st l s).isSome := by
  intro l
  induction l with
  | nil => intro _ s; exact ⟨rfl, by simp [sumOutgoing]⟩
  | cons c rest ih =>
    intro h s
    obtain ⟨g, g2, hgf, hgf2, herr⟩ := h c (List.mem_cons_self c rest)
    have e1 : sumOutgoing st2 (c :: rest) s
        = sumOutgoing st2 rest (s + g2.error * c.weight) := by
      rw [sumOutgoing, hgf2]
    have e2 : sumOutgoing st (c :: rest) s
        = sumOutgoing st rest (s + g.error * c.weight) := by
      rw [sumOutgoing, hgf]
    have ihr := ih (fun c2 hc2 => h c2 (List.mem_cons_of_mem _ hc2)) (s + g.error * c.weight)
    refine ⟨?_, ?_⟩
    · rw [e1, e2, herr]
      exact ihr.1
    · rw [e2]
      exact ihr.2

theorem errorSum_congr (ns : List (NetworkNode α)) (cs : List (NetworkConnection α))
    (hWF : WellFormed ns cs) (m : Nat) (st st2 : List (NetworkNode α))
    (hst : Shadows ns st) (hst2 : Shadows ns st2) (hagree : ErrAgreeOff m ns st st2)
    (q : Nat) (a : NetworkNode α) (hq : ns[q]? = some a) (hlay : a.layer + 1 ≠ m)
    (b b2 : NetworkNode α) (hb : st[q]? = some b) (hb2 : st2[q]? = some b2) :
    errorSum st2 cs b2 = errorSum st cs b ∧ (errorSum st cs b).isSome := by
  have hbid : b.id = a.id := (hst.2 q a b hq hb).1
  have hb2id : b2.id = a.id := (hst2.2 q a b2 hq hb2).1
  rw [errorSum, errorSum, hbid, hb2id]
  apply sumOutgoing_congr st st2
  intro c hc
  have hcmem : c ∈ cs ∧ c.fromNodeId = a.id := by
    have := List.mem_filter.mp hc
    exact ⟨this.1, by simpa using this.2⟩
  obtain ⟨f, hf, t, ht, hfid, htid, hlt⟩ := hWF.2.2.2.2 c hcmem.1
  have hfa : f = a := by
    apply List.inj_on_of_nodup_map hWF.1 hf (mem_of_getElem? hq)
    rw [hfid, hcmem.2]
  subst hfa
  obtain ⟨qt, hqt⟩ := List.mem_iff_getElem?.mp ht
  obtain ⟨g, hgq, hgfind, _, _, _, _⟩ := findNode?_shadows ns st hWF.1 hst qt t hqt
  obtain ⟨g2, hgq2, hgfind2, _, _, _, _⟩ := findNode?_shadows ns st2 hWF.1 hst2 qt t hqt
  refine ⟨g, g2, ?_, ?_, ?_⟩
  · rw [← htid]; exact hgfind
  · rw [← htid]; exact hgfind2
  · have htl : t.layer ≠ m := by omega
    exact hagree qt t g g2 hqt hgq hgq2 htl

theorem bwdGF_shape (sel : String) (cs : List (NetworkConnection α))
    (st : List (NetworkNode α)) (m : Nat) (b : NetworkNode α) :
    (bwdGF sel cs st m b).id = b.id ∧ (bwdGF sel cs st m b).layer = b.layer ∧
      (bwdGF sel cs st m b).type = b.type ∧ (bwdGF sel cs st m b).bias = b.bias := by
  unfold bwdGF
  by_cases hb : b.layer = m
  · rw [if_pos hb]
    by_cases ht : b.type = .input
    · rw [if_pos ht]; exact ⟨rfl, rfl, rfl, rfl⟩
    · rw [if_neg ht]; exact ⟨rfl, rfl, rfl, rfl⟩
  · rw [if_neg hb]; exact ⟨rfl, rfl, rfl, rfl⟩

theorem bwdGF_fix (sel : String) (cs : List (NetworkConnection α))
    (st : List (NetworkNode α)) (m : Nat) (b : NetworkNode α) (hb : b.layer ≠ m) :
    bwdGF sel cs st m b = b := by
  unfold bwdGF
  rw [if_neg hb]

theorem bwdGF_activation (sel : String) (cs : List (NetworkConnection α))
    (st : List (NetworkNode α)) (m : Nat) (b : NetworkNode α) :
    (bwdGF sel cs st m b).activation = b.activation := by
  unfold bwdGF
  by_cases hb : b.layer = m
  · rw [if_pos hb]
    by_cases ht : b.type = .input
    · rw [if_pos ht]
    · rw [if_neg ht]
  · rw [if_neg hb]

theorem errAgreeOff_map (m : Nat) (ns st : List (NetworkNode α)) (hsh : Shadows ns st)
    (g : NetworkNode α → NetworkNode α) (hfix : ∀ b, b.layer ≠ m → g b = b) :
    ErrAgreeOff m ns st (st.map g) := by
  intro j a b b2 ha hb hb2 hlay
  rw [List.getElem?_map, hb] at hb2
  have hgb : g b = b2 := Option.some_inj.mp hb2
  have hbl : b.layer = a.layer := (hsh.2 j a b ha hb).2.1
  rw [← hgb, hfix b (by rw [hbl]; exact hlay)]

theorem errAgreeOff_hyb (m : Nat) (ns st : List (NetworkNode α)) (hsh : Shadows ns st)
    (g : NetworkNode α → NetworkNode α) (hfix : ∀ b, b.layer ≠ m → g b = b) (i : Nat) :
    ErrAgreeOff m ns st (hyb g st i) := by
  intro j a b b2 ha hb hb2 hlay
  rw [hyb_getElem] at hb2
  by_cases hj : j < i
  · rw [if_pos hj, hb] at hb2
    have hgb : g b = b2 := Option.some_inj.mp hb2
    have hbl : b.layer = a.layer := (hsh.2 j a b ha hb).2.1
    rw [← hgb, hfix b (by rw [hbl]; exact hlay)]
  · rw [if_neg hj, hb] at hb2
    exact (Option.some_inj.mp hb2).symm ▸ rfl

theorem bwdLayers_invariant (sel : String) (ns : List (NetworkNode α))
    (cs : List (NetworkConnection α)) (hWF : WellFormed ns cs)
    (ms : List (NetworkNode α)) :
    ∀ k : Nat, k ≤ maxLayer ns → ∀ st, BwdInv sel cs ns ms st k →
      ∃ st2, bwdLayers sel cs k st = some st2 ∧ BwdInv sel cs ns ms st2 0 := by
  intro k
  induction k with
  | zero =>
    intro _ st hInv
    exact ⟨st, rfl, hInv⟩
  | succ k ih =>
    intro hk st hInv
    obtain ⟨hsh, hinv⟩ := hInv
    have H : ∀ (i : Nat) (b : NetworkNode α), st[i]? = some b →
        bwdUpd sel cs k (hyb (bwdGF sel cs st k) st i) b = some (bwdGF sel cs st k b) := by
      intro i b hb
      by_cases hbl : b.layer = k
      · by_cases hbt : b.type = .input
        · rw [bwdUpd, if_pos hbl, if_pos hbt]
          unfold bwdGF
          rw [if_pos hbl, if_pos hbt]
        · obtain ⟨a, ha, _, hal, _, _⟩ := shadows_get_rev ns st hsh i b hb
          have hhybi : (hyb (bwdGF sel cs st k) st i)[i]? = some b := by
            rw [hyb_getElem, if_neg (by omega)]
            exact hb
          have hcongr := errorSum_congr ns cs hWF k st
            (hyb (bwdGF sel cs st k) st i) hsh
            (shadows_hyb ns st hsh _ (bwdGF_shape sel cs st k) i)
            (errAgreeOff_hyb k ns st hsh _ (fun b3 hb3 => bwdGF_fix sel cs st k b3 hb3) i)
            i a ha (by omega) b b hb hhybi
          obtain ⟨s, hs⟩ := Option.isSome_iff_exists.mp hcongr.2
          rw [bwdUpd, if_pos hbl, if_neg hbt, hcongr.1, hs]
          unfold bwdGF
          rw [if_pos hbl, if_neg hbt, hs]
          rfl
      · rw [bwdUpd, if_neg hbl, bwdGF_fix sel cs st k b hbl]
    have hseq : seqUpdate (bwdUpd sel cs k) st = some (st.map (bwdGF sel cs st k)) :=
      seqGo_map (bwdUpd sel cs k) (bwdGF sel cs st k) st H
    have hInv1 : BwdInv sel cs ns ms (st.map (bwdGF sel cs st k)) k := by
      refine ⟨shadows_map ns st hsh _ (bwdGF_shape sel cs st k), ?_⟩
      intro j a b1 bm ha hb1 hbm
      have hb1' := hb1
      rw [List.getElem?_map] at hb1'
      cases hbj : st[j]? with
      | none => rw [hbj] at hb1'; simp at hb1'
      | some b =>
        rw [hbj] at hb1'
        have hgb : bwdGF sel cs st k b = b1 := Option.some_inj.mp hb1'
        have hbl : b.layer = a.layer := (hsh.2 j a b ha hbj).2.1
        have hbt : b.type = a.type := (hsh.2 j a b ha hbj).2.2.1
        obtain ⟨hact, hlow, hhigh⟩ := hinv j a b bm ha hbj hbm
        refine ⟨?_, ?_, ?_⟩
        · rw [← hgb, bwdGF_activation]
          exact hact
        · intro hjk
          have hfix : bwdGF sel cs st k b = b := bwdGF_fix sel cs st k b (by omega)
          rw [← hgb, hfix]
          exact hlow (by omega)
        · intro hge
          constructor
          · intro hnh
            by_cases hak : a.layer = k
            · -- layer k, not hidden: under WF it must be input (no output below the top)
              have hnotout : a.type ≠ .output := by
                intro hout
                have := (hWF.2.2.1 a (mem_of_getElem? ha)).mp hout
                omega
              have hain : a.type = .input := by
                cases hty : a.type with
                | input => rfl
                | hidden => exact absurd hty hnh
                | output => exact absurd hty hnotout
              have : bwdGF sel cs st k b = b := by
                unfold bwdGF
                rw [if_pos (by omega), if_pos (by rw [hbt, hain])]
              rw [← hgb, this]
              exact hlow (by omega)
            · have hfix : bwdGF sel cs st k b = b := bwdGF_fix sel cs st k b (by omega)
              rw [← hgb, hfix]
              exact (hhigh (by omega)).1 hnh
          · intro hh
            by_cases hak : a.layer = k
            · -- freshly processed hidden node at layer k
              have hbmap : (st.map (bwdGF sel cs st k))[j]? = some b1 := hb1
              have hcongr := errorSum_congr ns cs hWF k st
                (st.map (bwdGF sel cs st k)) hsh
                (shadows_map ns st hsh _ (bwdGF_shape sel cs st k))
                (errAgreeOff_map k ns st hsh _ (fun b3 hb3 => bwdGF_fix sel cs st k b3 hb3))
                j a ha (by omega) b b1 hbj hbmap
              obtain ⟨s, hs⟩ := Option.isSome_iff_exists.mp hcongr.2
              refine ⟨s, by rw [hcongr.1]; exact hs, ?_⟩
              have hnotin : b.type ≠ .input := by
                rw [hbt, hh]
                decide
              have : bwdGF sel cs st k b = { b with
                  error := ((errorSum st cs b).getD 0) * activateDerivative sel b.activation } := by
                unfold bwdGF
                rw [if_pos (by omega), if_neg hnotin]
              rw [← hgb, this, hs]
              simp [bwdGF_activation]
            · -- hidden node strictly above k: already final, transfer the equation
              have hfix : bwdGF sel cs st k b = b := bwdGF_fix sel cs st k b (by omega)
              obtain ⟨s, hsum, herr⟩ := (hhigh (by omega)).2 hh
              have hbmap : (st.map (bwdGF sel cs st k))[j]? = some b1 := hb1
              have hcongr := errorSum_congr ns cs hWF k st
                (st.map (bwdGF sel cs st k)) hsh
                (shadows_map ns st hsh _ (bwdGF_shape sel cs st k))
                (errAgreeOff_map k ns st hsh _ (fun b3 hb3 => bwdGF_fix sel cs st k b3 hb3))
                j a ha (by omega) b b1 hbj hbmap
              refine ⟨s, by rw [hcongr.1]; exact hsum, ?_⟩
              rw [← hgb, hfix]
              exact herr
    obtain ⟨st2, hrec, hfin⟩ := ih (by omega) (st.map (bwdGF sel cs st k)) hInv1
    refine ⟨st2, ?_, hfin⟩
    rw [bwdLayers, hseq]
    exact hrec

theorem shadows_setOutputErrors (sel : String) (targets : List α)
    (ns : List (NetworkNode α)) : Shadows ns (setOutputErrors sel targets ns) := by
  refine ⟨setOutputErrors_length sel targets ns, ?_⟩
  intro j a b ha hb
  obtain ⟨b2, hb2, hEE, _, _⟩ := setOutputErrors_pointwise sel targets ns j a ha
  have : b2 = b := Option.some_inj.mp (hb2 ▸ hb)
  rw [← this]
  exact ⟨hEE.1, hEE.2.2.2.1, hEE.2.2.2.2.2.2, hEE.2.2.2.2.2.1⟩

theorem bwdInv_init (sel : String) (targets : List α) (ns : List (NetworkNode α))
    (cs : List (NetworkConnection α)) (hWF : WellFormed ns cs) :
    BwdInv sel cs ns (setOutputErrors sel targets ns) (setOutputErrors sel targets ns)
      (maxLayer ns) := by
  refine ⟨shadows_setOutputErrors sel targets ns, ?_⟩
  intro j a b bm ha hb hbm
  have hbbm : b = bm := Option.some_inj.mp (hb ▸ hbm)
  subst hbbm
  refine ⟨rfl, fun _ => rfl, fun hge => ⟨fun _ => rfl, fun hh => ?_⟩⟩
  have h1 := (hWF.2.2.2.1 a (mem_of_getElem? ha)).mp hh
  have h2 := le_maxLayer ns a (mem_of_getElem? ha)
  exact absurd (by omega : a.layer = maxLayer ns) h1.2

theorem updateConnection_chars (lr : α) (st2 : List (NetworkNode α))
    (c c2 : NetworkConnection α) (h : updateConnection lr st2 c = some c2) :
    ∃ f2 t2, findNode? st2 c.fromNodeId = some f2 ∧ findNode? st2 c.toNodeId = some t2 ∧
      c2.gradient = t2.error * f2.activation ∧
      c2.weight = c.weight + lr * (t2.error * f2.activation) ∧ ConnKeepsEndpoints c c2 := by
  unfold updateConnection at h
  cases hf : findNode? st2 c.fromNodeId with
  | none =>
    rw [hf] at h
    exact absurd h (by simp)
  | some f2 =>
    rw [hf] at h
    cases ht : findNode? st2 c.toNodeId with
    | none =>
      rw [ht] at h
      exact absurd h (by simp)
    | some t2 =>
      rw [ht] at h
      have h2 := Option.some_inj.mp h
      refine ⟨f2, t2, rfl, rfl, ?_, ?_, ?_⟩
      · rw [← h2]
      · rw [← h2]
      · rw [← h2]
        exact ⟨rfl, rfl, rfl⟩

theorem updateConnection_total (lr : α) (ns : List (NetworkNode α))
    (cs : List (NetworkConnection α)) (hWF : WellFormed ns cs)
    (st2 : List (NetworkNode α)) (hsh : Shadows ns st2) :
    ∀ c ∈ cs, ∃ c2, updateConnection lr st2 c = some c2 := by
  intro c hc
  obtain ⟨f, hf, t, ht, hfid, htid, _⟩ := hWF.2.2.2.2 c hc
  obtain ⟨qf, hqf⟩ := List.mem_iff_getElem?.mp hf
  obtain ⟨qt, hqt⟩ := List.mem_iff_getElem?.mp ht
  obtain ⟨g, _, hgf, _, _, _, _⟩ := findNode?_shadows ns st2 hWF.1 hsh qf f hqf
  obtain ⟨g2, _, hgt, _, _, _, _⟩ := findNode?_shadows ns st2 hWF.1 hsh qt t hqt
  rw [hfid] at hgf
  rw [htid] at hgt
  refine ⟨{ c with gradient := g2.error * g.activation, weight := c.weight + lr * (g2.error * g.activation) }, ?_⟩
  unfold updateConnection
  rw [hgf, hgt]

/-- C2: on a well-formed network with a full-length target vector,
`backward` succeeds and produces exactly the backpropagation update: each
output neuron's error is `(target_i - activation_i) *
activationDerivative(activation_i)`; each hidden neuron's error is
`activationDerivative(activation)` times the sum over its outgoing
connections of destination error times (pre-update) connection weight, the
destination errors being the final ones, so the strictly decreasing layer
order is respected; input neurons keep their previous error; and only
after all errors are final, every connection stores `gradient =
destination error * source activation` and adds `learningRate * gradient`
to its weight.  Activations, ids, layers and kinds are untouched. -/
theorem C2_backward_evaluation (cfg : NetworkConfig α) (ns : List (NetworkNode α))
    (cs : List (NetworkConnection α)) (targets : List α) (hWF : WellFormed ns cs)
    (hlen : targets.length = (ns.filter (fun n => n.type == NodeType.output)).length)
    (hout : (ns.filter (fun n => n.type == NodeType.output)).length = cfg.outputSize) :
    ∃ ns2 cs2, backward cfg ns cs targets = some (ns2, cs2) ∧
      List.Forall₂ EqExceptError ns ns2 ∧
      (∀ (j : Nat) (a b : NetworkNode α), ns[j]? = some a → ns2[j]? = some b →
        (a.type = .output → b.error =
          (targets.getD (outIdxAt ns j) 0 - a.activation)
            * activateDerivative cfg.activationFunction a.activation) ∧
        (a.type = .hidden → ∃ s, errorSum ns2 cs b = some s ∧
          b.error = activateDerivative cfg.activationFunction a.activation * s) ∧
        (a.type = .input → b.error = a.error)) ∧
      List.Forall₂ (fun c c2 => ConnKeepsEndpoints c c2 ∧
        ∃ f2 t2, findNode? ns2 c.fromNodeId = some f2 ∧ findNode? ns2 c.toNodeId = some t2 ∧
          c2.gradient = t2.error * f2.activation ∧
          c2.weight = c.weight + cfg.learningRate * (t2.error * f2.activation)) cs cs2 := by
  have hshm := shadows_setOutputErrors cfg.activationFunction targets ns
  have hmaxeq : maxLayer (setOutputErrors cfg.activationFunction targets ns) = maxLayer ns := by
    apply maxLayer_congr
    exact (shadows_to_forall₂ ns _ hshm).imp (fun a b h => h.2.1)
  obtain ⟨st2, hbwd, hfin⟩ := bwdLayers_invariant cfg.activationFunction ns cs hWF
    (setOutputErrors cfg.activationFunction targets ns) (maxLayer ns) (Nat.le_refl _)
    (setOutputErrors cfg.activationFunction targets ns)
    (bwdInv_init cfg.activationFunction targets ns cs hWF)
  have hsh2 : Shadows ns st2 := hfin.1
  obtain ⟨cs2, hcs2⟩ := mapOpt_total (updateConnection cfg.learningRate st2) cs
    (updateConnection_total cfg.learningRate ns cs hWF st2 hsh2)
  have hbeq : backward cfg ns cs targets = some (st2, cs2) := by
    simp only [backward]
    rw [hmaxeq, hbwd]
    have h2 : (match mapOpt (updateConnection cfg.learningRate st2) cs with
      | none => none
      | some cs3 => some (st2, cs3)) = some (st2, cs2) := by
      rw [hcs2]
    exact h2
  refine ⟨st2, cs2, hbeq, backward_node_frame cfg ns cs targets st2 cs2 hbeq, ?_, ?_⟩
  · intro j a b ha hb
    have hltm : j < (setOutputErrors cfg.activationFunction targets ns).length := by
      rw [setOutputErrors_length]
      exact (List.getElem?_eq_some.mp ha).1
    have hbm : (setOutputErrors cfg.activationFunction targets ns)[j]?
        = some (setOutputErrors cfg.activationFunction targets ns)[j] :=
      List.getElem?_eq_getElem hltm
    obtain ⟨hact, _, hhigh⟩ := hfin.2 j a b _ ha hb hbm
    obtain ⟨bm2, hbm2, hEE, hfixm, houtm⟩ :=
      setOutputErrors_pointwise cfg.activationFunction targets ns j a ha
    have hbm2eq : bm2 = (setOutputErrors cfg.activationFunction targets ns)[j] :=
      Option.some_inj.mp (hbm2 ▸ hbm)
    refine ⟨?_, ?_, ?_⟩
    · intro hty
      have h1 := (hhigh (Nat.zero_le _)).1 (by rw [hty]; decide)
      rw [h1, ← hbm2eq, houtm hty]
      rfl
    · intro hty
      obtain ⟨s, hsum, herr⟩ := (hhigh (Nat.zero_le _)).2 hty
      refine ⟨s, hsum, ?_⟩
      have hactm : bm2.activation = a.activation := hEE.2.2.2.2.1
      rw [herr, hact, ← hbm2eq, hactm]
      ring
    · intro hty
      have h1 := (hhigh (Nat.zero_le _)).1 (by rw [hty]; decide)
      have hfix : bm2 = a := hfixm (by rw [hty]; decide)
      rw [h1, ← hbm2eq, hfix]
  · have := mapOpt_forall₂ (updateConnection cfg.learningRate st2) cs cs2 hcs2
    apply this.imp
    intro c c2 hu
    obtain ⟨f2, t2, hff, htt, hg, hw, hk⟩ := updateConnection_chars cfg.learningRate st2 c c2 hu
    exact ⟨hk, f2, t2, hff, htt, hg, hw⟩

/-- Witness for C2 on a concrete network with a full-length target. -/
theorem C2_witness :
    (WellFormed wNodes wConns ∧
      [(1 : ℚ)].length = (wNodes.filter (fun n => n.type == NodeType.output)).length ∧
      (wNodes.filter (fun n => n.type == NodeType.output)).length = wCfg.outputSize) ∧
    (∃ ns2 cs2, backward wCfg wNodes wConns [(1 : ℚ)] = some (ns2, cs2) ∧
      List.Forall₂ EqExceptError wNodes ns2 ∧
      (∀ (j : Nat) (a b : NetworkNode ℚ), wNodes[j]? = some a → ns2[j]? = some b →
        (a.type = .output → b.error =
          ([(1 : ℚ)].getD (outIdxAt wNodes j) 0 - a.activation)
            * activateDerivative wCfg.activationFunction a.activation) ∧
        (a.type = .hidden → ∃ s, errorSum ns2 wConns b = some s ∧
          b.error = activateDerivative wCfg.activationFunction a.activation * s) ∧
        (a.type = .input → b.error = a.error)) ∧
      List.Forall₂ (fun c c2 => ConnKeepsEndpoints c c2 ∧
        ∃ f2 t2, findNode? ns2 c.fromNodeId = some f2 ∧ findNode? ns2 c.toNodeId = some t2 ∧
          c2.gradient = t2.error * f2.activation ∧
          c2.weight = c.weight + wCfg.learningRate * (t2.error * f2.activation)) wConns cs2) :=
  ⟨⟨by unfold WellFormed; decide, by decide, by decide⟩,
    C2_backward_evaluation wCfg wNodes wConns [(1 : ℚ)]
      (by unfold WellFormed; decide) (by decide) (by decide)⟩

end BackwardSpec

/-! ### C4: short target vectors in the JS-faithful model -/

section JSClaims

variable {α : Type} [LinearOrderedField α]

theorem jmul_none_left (x : Option α) : jmul none x = none := by
  cases x <;> rfl

theorem jmul_none_right (x : Option α) : jmul x none = none := by
  cases x <;> rfl

theorem jadd_none_right (x : Option α) : jadd x none = none := by
  cases x <;> rfl

theorem jsub_none_left (x : Option α) : jsub none x = none := by
  cases x <;> rfl

theorem jsOutErr_none (sel : String) (targets : List α) (i : Nat) (n : JSNode α)
    (h : targets.length ≤ i) : jsOutErr sel targets i n = none := by
  unfold jsOutErr
  rw [List.getElem?_eq_none h, jsub_none_left, jmul_none_left]

theorem jsSetOutputErrorsGo_length (sel : String) (ts : List α) :
    ∀ (l : List (JSNode α)) (c : Nat), (jsSetOutputErrorsGo sel ts l c).length = l.length := by
  intro l
  induction l with
  | nil => intro c; rfl
  | cons n rest ih =>
    intro c
    rw [jsSetOutputErrorsGo]
    by_cases hn : n.type = .output
    · rw [if_pos hn]; simp [ih]
    · rw [if_neg hn]; simp [ih]

theorem jsSetOutputErrorsGo_getElem (sel : String) (ts : List α) :
    ∀ (l : List (JSNode α)) (c j : Nat),
      (jsSetOutputErrorsGo sel ts l c)[j]? = (l[j]?).map (fun n =>
        if n.type = .output then
          { n with error := jsOutErr sel ts (c + ((l.take j).filter (fun m => m.type == NodeType.output)).length) n }
        else n) := by
  intro l
  induction l with
  | nil => intro c j; simp [jsSetOutputErrorsGo]
  | cons n rest ih =>
    intro c j
    rw [jsSetOutputErrorsGo]
    by_cases hn : n.type = .output
    · rw [if_pos hn]
      cases j with
      | zero => simp [hn]
      | succ j2 =>
        simp only [List.getElem?_cons_succ, List.take_succ_cons, List.filter_cons]
        rw [ih (c + 1) j2]
        simp [hn, Nat.add_assoc, Nat.add_comm 1]
    · rw [if_neg hn]
      cases j with
      | zero => simp [hn]
      | succ j2 =>
        simp only [List.getElem?_cons_succ, List.take_succ_cons, List.filter_cons]
        rw [ih c j2]
        simp [hn]

theorem jsShadows_get (ns st : List (JSNode α)) (h : JsShadows ns st)
    (j : Nat) (a : JSNode α) (ha : ns[j]? = some a) :
    ∃ b, st[j]? = some b ∧ b.id = a.id ∧ b.layer = a.layer ∧ b.type = a.type := by
  have hlt : j < st.length := by
    rw [h.1]
    exact (List.getElem?_eq_some.mp ha).1
  have hb : st[j]? = some st[j] := List.getElem?_eq_getElem hlt
  exact ⟨st[j], hb, h.2 j a st[j] ha hb⟩

theorem jsShadows_get_rev (ns st : List (JSNode α)) (h : JsShadows ns st)
    (j : Nat) (b : JSNode α) (hb : st[j]? = some b) :
    ∃ a, ns[j]? = some a ∧ b.id = a.id ∧ b.layer = a.layer ∧ b.type = a.type := by
  have hlt : j < ns.length := by
    rw [← h.1]
    exact (List.getElem?_eq_some.mp hb).1
  have ha : ns[j]? = some ns[j] := List.getElem?_eq_getElem hlt
  exact ⟨ns[j], ha, h.2 j ns[j] b ha hb⟩

theorem jsMaxLayer_congr (l1 l2 : List (JSNode α))
    (h : List.Forall₂ (fun a b => b.layer = a.layer) l1 l2) :
    jsMaxLayer l2 = jsMaxLayer l1 := by
  induction h with
  | nil => rfl
  | cons hR hrest ih =>
    show max _ (jsMaxLayer _) = max _ (jsMaxLayer _)
    rw [hR, ih]

theorem js_le_maxLayer (ns : List (JSNode α)) : ∀ n ∈ ns, n.layer ≤ jsMaxLayer ns := by
  induction ns with
  | nil => intro n hn; exact absurd hn (by simp)
  | cons a t ih =>
    intro n hn
    rcases List.mem_cons.mp hn with heq | hmem
    · rw [heq]
      exact le_max_left _ _
    · exact le_trans (ih n hmem) (le_max_right _ _)

theorem seqGo_total_of_inv {β : Type} (upd : List β → β → Option β) (Inv : List β → Prop)
    (hupd : ∀ (st : List β) (i : Nat) (b : β), Inv st → st[i]? = some b →
      ∃ b2, upd st b = some b2)
    (hpres : ∀ (st : List β) (i : Nat) (b b2 : β), Inv st → st[i]? = some b →
      upd st b = some b2 → Inv (st.set i b2)) :
    ∀ (fuel i : Nat) (st : List β), Inv st →
      ∃ st2, seqGo upd fuel i st = some st2 ∧ Inv st2 := by
  intro fuel
  induction fuel with
  | zero => intro i st hInv; exact ⟨st, rfl, hInv⟩
  | succ fuel ih =>
    intro i st hInv
    cases hb : st[i]? with
    | none =>
      refine ⟨st, ?_, hInv⟩
      rw [seqGo, hb]
    | some b =>
      obtain ⟨b2, hb2⟩ := hupd st i b hInv hb
      obtain ⟨st2, hrec, hInv2⟩ := ih (i + 1) (st.set i b2) (hpres st i b b2 hInv hb hb2)
      refine ⟨st2, ?_, hInv2⟩
      rw [seqGo_step upd fuel i st b b2 hb hb2]
      exact hrec

theorem jsSumOutgoing_total (st : List (JSNode α)) :
    ∀ (l : List (JSConn α)), (∀ c ∈ l, (jsFindNode? st c.toNodeId).isSome) →
      ∀ s, ∃ r, jsSumOutgoing st l s = some r := by
  intro l
  induction l with
  | nil => intro _ s; exact ⟨s, rfl⟩
  | cons c rest ih =>
    intro h s
    obtain ⟨t, ht⟩ := Option.isSome_iff_exists.mp (h c (List.mem_cons_self c rest))
    obtain ⟨r, hr⟩ := ih (fun c2 hc2 => h c2 (List.mem_cons_of_mem _ hc2))
      (jadd s (jmul t.error c.weight))
    refine ⟨r, ?_⟩
    rw [jsSumOutgoing, ht]
    exact hr

theorem jsFind_isSome_of_mem (st : List (JSNode α)) (x : Nat) (g : JSNode α)
    (hg : g ∈ st) (hid : g.id = x) : (jsFindNode? st x).isSome := by
  rw [jsFindNode?, List.find?_isSome]
  exact ⟨g, hg, by simp [hid]⟩

theorem jsBwdUpd_shape (sel : String) (cs : List (JSConn α)) (l : Nat)
    (st : List (JSNode α)) (n n2 : JSNode α) (h : jsBwdUpd sel cs l st n = some n2) :
    n2.id = n.id ∧ n2.layer = n.layer ∧ n2.type = n.type := by
  unfold jsBwdUpd at h
  split at h
  · split at h
    · have := Option.some_inj.mp h
      rw [← this]
      exact ⟨rfl, rfl, rfl⟩
    · cases hs : jsErrorSum st cs n with
      | none => rw [hs] at h; exact absurd h (by simp)
      | some s =>
        rw [hs] at h
        simp only [Option.map_some', Option.some.injEq] at h
        rw [← h]
        exact ⟨rfl, rfl, rfl⟩
  · have := Option.some_inj.mp h
    rw [← this]
    exact ⟨rfl, rfl, rfl⟩

theorem jsBwdUpd_total (sel : String) (ns : List (JSNode α)) (cs : List (JSConn α))
    (hto : ∀ c ∈ cs, ∃ t ∈ ns, t.id = c.toNodeId) (l : Nat)
    (st : List (JSNode α)) (hsh : JsShadows ns st) (b : JSNode α) :
    ∃ b2, jsBwdUpd sel cs l st b = some b2 := by
  unfold jsBwdUpd
  by_cases hbl : b.layer = l
  · rw [if_pos hbl]
    by_cases hbt : b.type = .input
    · rw [if_pos hbt]
      exact ⟨b, rfl⟩
    · rw [if_neg hbt]
      have htotal : ∀ c ∈ jsOutgoingOf cs b.id, (jsFindNode? st c.toNodeId).isSome := by
        intro c hc
        have hcm : c ∈ cs := (List.mem_filter.mp hc).1
        obtain ⟨t, htm, htid⟩ := hto c hcm
        obtain ⟨qt, hqt⟩ := List.mem_iff_getElem?.mp htm
        obtain ⟨g, hgq, hgid, _, _⟩ := jsShadows_get ns st hsh qt t hqt
        exact jsFind_isSome_of_mem st c.toNodeId g (mem_of_getElem? hgq)
          (by rw [hgid, htid])
      obtain ⟨r, hr⟩ := jsSumOutgoing_total st (jsOutgoingOf cs b.id) htotal (some 0)
      rw [jsErrorSum, hr]
      exact ⟨_, rfl⟩
  · rw [if_neg hbl]
    exact ⟨b, rfl⟩

theorem jsShadows_set (ns st : List (JSNode α)) (hsh : JsShadows ns st)
    (i : Nat) (b b2 : JSNode α) (hb : st[i]? = some b)
    (hshape : b2.id = b.id ∧ b2.layer = b.layer ∧ b2.type = b.type) :
    JsShadows ns (st.set i b2) := by
  refine ⟨by rw [List.length_set]; exact hsh.1, ?_⟩
  intro j a b3 ha hb3
  by_cases hj : i = j
  · subst hj
    rw [List.getElem?_set_self', hb] at hb3
    have : b2 = b3 := Option.some_inj.mp hb3
    obtain ⟨h1, h2, h3⟩ := hsh.2 i a b ha hb
    rw [← this]
    exact ⟨hshape.1.trans h1, hshape.2.1.trans h2, hshape.2.2.trans h3⟩
  · rw [List.getElem?_set_ne hj] at hb3
    exact hsh.2 j a b3 ha hb3

theorem jsBwdLayers_spec (sel : String) (ns : List (JSNode α)) (cs : List (JSConn α))
    (LL : Nat) (hto : ∀ c ∈ cs, ∃ t ∈ ns, t.id = c.toNodeId) :
    ∀ k : Nat, k ≤ LL → ∀ st, JsShadows ns st →
      ∃ st2, jsBwdLayers sel cs k st = some st2 ∧ JsShadows ns st2 ∧
        (∀ (j : Nat) (a b b2 : JSNode α), ns[j]? = some a → st[j]? = some b →
          st2[j]? = some b2 → LL ≤ a.layer → b2 = b) := by
  intro k
  induction k with
  | zero =>
    intro _ st hsh
    refine ⟨st, rfl, hsh, ?_⟩
    intro j a b b2 _ hb hb2 _
    exact Option.some_inj.mp (hb2 ▸ hb)
  | succ k ih =>
    intro hk st hsh
    obtain ⟨st1, hseq, hsh1⟩ := seqGo_total_of_inv (jsBwdUpd sel cs k) (JsShadows ns)
      (fun st3 i b hInv _ => jsBwdUpd_total sel ns cs hto k st3 hInv b)
      (fun st3 i b b2 hInv hb hb2 =>
        jsShadows_set ns st3 hInv i b b2 hb (jsBwdUpd_shape sel cs k st3 b b2 hb2))
      st.length 0 st hsh
    have hrel := seqGo_rel (R := fun (b b2 : JSNode α) => LL ≤ b.layer → b2 = b)
      (fun b _ => rfl)
      (fun a b c hab hbc hle => by rw [hbc (by rw [hab hle]; exact hle), hab hle])
      (jsBwdUpd sel cs k)
      (fun st3 b b2 hu hle => by
        unfold jsBwdUpd at hu
        rw [if_neg (by omega)] at hu
        exact (Option.some_inj.mp hu).symm)
      st.length 0 st st1 hseq
    obtain ⟨st2, hrec, hsh2, hpres⟩ := ih (by omega) st1 hsh1
    refine ⟨st2, ?_, hsh2, ?_⟩
    · rw [jsBwdLayers]
      have hsequ : seqUpdate (jsBwdUpd sel cs k) st = some st1 := hseq
      rw [hsequ]
      exact hrec
    · intro j a b b2 ha hb hb2 hle
      have hbl : b.layer = a.layer := (hsh.2 j a b ha hb).2.1
      obtain ⟨b1, hb1, hR⟩ := hrel j b hb
      have hb1b : b1 = b := hR (by omega)
      have hb2b1 : b2 = b1 := hpres j a b1 b2 ha hb1 hb2 hle
      rw [hb2b1, hb1b]

end JSClaims

section JSClaimsMain

variable {α : Type} [LinearOrderedField α]

theorem jsSetOutputErrors_pointwise (sel : String) (targets : List α)
    (ns : List (JSNode α)) (j : Nat) (a : JSNode α) (ha : ns[j]? = some a) :
    ∃ b, (jsSetOutputErrors sel targets ns)[j]? = some b ∧
      b.id = a.id ∧ b.layer = a.layer ∧ b.type = a.type ∧ b.activation = a.activation ∧
      (a.type ≠ .output → b = a) ∧
      (a.type = .output → b.error = jsOutErr sel targets (jsOutIdxAt ns j) a) := by
  rw [jsSetOutputErrors, jsSetOutputErrorsGo_getElem, ha]
  refine ⟨_, rfl, ?_, ?_, ?_, ?_, ?_, ?_⟩
  · by_cases hn : a.type = .output <;> simp [hn]
  · by_cases hn : a.type = .output <;> simp [hn]
  · by_cases hn : a.type = .output <;> simp [hn]
  · by_cases hn : a.type = .output <;> simp [hn]
  · intro hn; simp [hn]
  · intro hn
    simp only [if_pos hn, jsOutIdxAt, Nat.zero_add]

theorem jsShadows_setOutputErrors (sel : String) (targets : List α)
    (ns : List (JSNode α)) : JsShadows ns (jsSetOutputErrors sel targets ns) := by
  refine ⟨by rw [jsSetOutputErrors]; exact jsSetOutputErrorsGo_length sel targets ns 0, ?_⟩
  intro j a b ha hb
  obtain ⟨b2, hb2, h1, h2, h3, _, _, _⟩ := jsSetOutputErrors_pointwise sel targets ns j a ha
  have : b2 = b := Option.some_inj.mp (hb2 ▸ hb)
  rw [← this]
  exact ⟨h1, h2, h3⟩

theorem jsFindNode?_shadows (ns st : List (JSNode α))
    (hnd : (ns.map (fun n => n.id)).Nodup) (hsh : JsShadows ns st)
    (q : Nat) (f : JSNode α) (hq : ns[q]? = some f) :
    ∃ g, st[q]? = some g ∧ jsFindNode? st f.id = some g := by
  obtain ⟨g, hg, hgid, _, _⟩ := jsShadows_get ns st hsh q f hq
  refine ⟨g, hg, ?_⟩
  apply find?_unique_pos _ st q g hg (by simp [hgid])
  intro j c hj hpc
  obtain ⟨a, ha, haid, _, _⟩ := jsShadows_get_rev ns st hsh j c hj
  apply nodup_pos_unique (fun n => n.id) ns hnd j q a f ha hq
  rw [← haid]
  simpa using hpc

theorem jsUpdateConnection_chars (lr : α) (st2 : List (JSNode α))
    (c c2 : JSConn α) (h : jsUpdateConnection lr st2 c = some c2) :
    ∃ f2 t2, jsFindNode? st2 c.fromNodeId = some f2 ∧
      jsFindNode? st2 c.toNodeId = some t2 ∧
      c2.gradient = jmul t2.error (some f2.activation) ∧
      c2.weight = jadd c.weight (jmul (some lr) (jmul t2.error (some f2.activation))) := by
  unfold jsUpdateConnection at h
  cases hf : jsFindNode? st2 c.fromNodeId with
  | none =>
    rw [hf] at h
    exact absurd h (by simp)
  | some f2 =>
    rw [hf] at h
    cases ht : jsFindNode? st2 c.toNodeId with
    | none =>
      rw [ht] at h
      exact absurd h (by simp)
    | some t2 =>
      rw [ht] at h
      have h2 := Option.some_inj.mp h
      refine ⟨f2, t2, rfl, rfl, ?_, ?_⟩
      · rw [← h2]
      · rw [← h2]

theorem jsUpdateConnection_total (lr : α) (ns : List (JSNode α)) (cs : List (JSConn α))
    (hconn : ∀ c ∈ cs, (∃ f ∈ ns, f.id = c.fromNodeId) ∧ (∃ t ∈ ns, t.id = c.toNodeId))
    (st2 : List (JSNode α)) (hsh : JsShadows ns st2) :
    ∀ c ∈ cs, ∃ c2, jsUpdateConnection lr st2 c = some c2 := by
  intro c hc
  obtain ⟨⟨f, hfm, hfid⟩, ⟨t, htm, htid⟩⟩ := hconn c hc
  obtain ⟨qf, hqf⟩ := List.mem_iff_getElem?.mp hfm
  obtain ⟨qt, hqt⟩ := List.mem_iff_getElem?.mp htm
  obtain ⟨g, hgq, hgid, _⟩ := jsShadows_get ns st2 hsh qf f hqf
  obtain ⟨g2, hgq2, hgid2, _⟩ := jsShadows_get ns st2 hsh qt t hqt
  have hgf : (jsFindNode? st2 c.fromNodeId).isSome :=
    jsFind_isSome_of_mem st2 c.fromNodeId g (mem_of_getElem? hgq) (by rw [hgid, hfid])
  have hgt : (jsFindNode? st2 c.toNodeId).isSome :=
    jsFind_isSome_of_mem st2 c.toNodeId g2 (mem_of_getElem? hgq2) (by rw [hgid2, htid])
  obtain ⟨f2, hf2⟩ := Option.isSome_iff_exists.mp hgf
  obtain ⟨t2, ht2⟩ := Option.isSome_iff_exists.mp hgt
  refine ⟨{ c with gradient := jmul t2.error (some f2.activation), weight := jadd c.weight (jmul (some lr) (jmul t2.error (some f2.activation))) }, ?_⟩
  unfold jsUpdateConnection
  rw [hf2, ht2]

theorem forall₂_getElem {β γ : Type} {R : β → γ → Prop} {l1 : List β} {l2 : List γ}
    (h : List.Forall₂ R l1 l2) (q : Nat) (a : β) (b : γ)
    (ha : l1[q]? = some a) (hb : l2[q]? = some b) : R a b := by
  rw [List.forall₂_iff_get] at h
  obtain ⟨hlen, hget⟩ := h
  obtain ⟨h1, e1⟩ := List.getElem?_eq_some.mp ha
  obtain ⟨h2, e2⟩ := List.getElem?_eq_some.mp hb
  have hg := hget q h1 (by omega)
  rw [List.get_eq_getElem, List.get_eq_getElem] at hg
  rw [← e1, ← e2]
  exact hg

/-- C4 (amended): for a target vector shorter than the output width,
`backward` raises no error, but it does not skip the extra output neurons:
a JS out-of-range read gives `undefined`, so each output neuron beyond the
target length gets error `NaN`, and every connection into such a neuron
gets gradient `NaN` and weight `NaN` — the updates are attempted and
poison the state rather than being left out.  (`C4_counterexample` refutes
the claim as stated.) -/
theorem C4_nan_truncation (sel : String) (lr : α) (ns : List (JSNode α))
    (cs : List (JSConn α)) (targets : List α)
    (hnd : (ns.map (fun n => n.id)).Nodup)
    (houtiff : ∀ n ∈ ns, n.type = .output ↔ n.layer = jsMaxLayer ns)
    (hconn : ∀ c ∈ cs, (∃ f ∈ ns, f.id = c.fromNodeId) ∧ (∃ t ∈ ns, t.id = c.toNodeId))
    (hshort : targets.length < (ns.filter (fun n => n.type == NodeType.output)).length) :
    ∃ ns2 cs2, jsBackward sel lr ns cs targets = some (ns2, cs2) ∧
      (∀ (j : Nat) (a : JSNode α), ns[j]? = some a → a.type = .output →
        targets.length ≤ jsOutIdxAt ns j →
        ∃ b, ns2[j]? = some b ∧ b.error = none) ∧
      (∀ (q j : Nat) (c c2 : JSConn α) (a : JSNode α),
        cs[q]? = some c → cs2[q]? = some c2 → ns[j]? = some a →
        a.type = .output → targets.length ≤ jsOutIdxAt ns j → c.toNodeId = a.id →
        c2.gradient = none ∧ c2.weight = none) := by
  have hshm := jsShadows_setOutputErrors sel targets ns
  have hmaxeq : jsMaxLayer (jsSetOutputErrors sel targets ns) = jsMaxLayer ns := by
    apply jsMaxLayer_congr
    apply forall₂_of_pointwise ns _ hshm.1
    intro j a ha
    obtain ⟨b, hb, _, h2, _⟩ := jsShadows_get ns _ hshm j a ha
    exact ⟨b, hb, h2⟩
  obtain ⟨st2, hlayers, hsh2, hpres⟩ := jsBwdLayers_spec sel ns cs (jsMaxLayer ns)
    (fun c hc => (hconn c hc).2) (jsMaxLayer ns) (Nat.le_refl _)
    (jsSetOutputErrors sel targets ns) hshm
  obtain ⟨cs2, hcs2⟩ := mapOpt_total (jsUpdateConnection lr st2) cs
    (jsUpdateConnection_total lr ns cs hconn st2 hsh2)
  have hbeq : jsBackward sel lr ns cs targets = some (st2, cs2) := by
    simp only [jsBackward]
    rw [hmaxeq, hlayers]
    have h2 : (match mapOpt (jsUpdateConnection lr st2) cs with
      | none => none
      | some cs3 => some (st2, cs3)) = some (st2, cs2) := by
      rw [hcs2]
    exact h2
  have herrnone : ∀ (j : Nat) (a : JSNode α), ns[j]? = some a → a.type = .output →
      targets.length ≤ jsOutIdxAt ns j →
      ∃ b, st2[j]? = some b ∧ b.error = none := by
    intro j a ha hty hge
    obtain ⟨bm, hbm, _, _, _, _, _, houtm⟩ := jsSetOutputErrors_pointwise sel targets ns j a ha
    have hbmerr : bm.error = none := by
      rw [houtm hty, jsOutErr_none sel targets _ a hge]
    obtain ⟨b2, hb2, _, _, _⟩ := jsShadows_get ns st2 hsh2 j a ha
    have hb2bm : b2 = bm :=
      hpres j a bm b2 ha hbm hb2 (by rw [(houtiff a (mem_of_getElem? ha)).mp hty])
    exact ⟨b2, hb2, by rw [hb2bm]; exact hbmerr⟩
  refine ⟨st2, cs2, hbeq, herrnone, ?_⟩
  intro q j c c2 a hc hc2 ha hty hge hcta
  have hF := mapOpt_forall₂ (jsUpdateConnection lr st2) cs cs2 hcs2
  have hu : jsUpdateConnection lr st2 c = some c2 := forall₂_getElem hF q c c2 hc hc2
  obtain ⟨f2, t2, hff, htt, hg, hw⟩ := jsUpdateConnection_chars lr st2 c c2 hu
  obtain ⟨b2, hb2, hb2err⟩ := herrnone j a ha hty hge
  obtain ⟨g, hgq, hgfind⟩ := jsFindNode?_shadows ns st2 hnd hsh2 j a ha
  have hgb2 : g = b2 := Option.some_inj.mp (hgq ▸ hb2)
  have ht2g : t2 = g := by
    rw [hcta] at htt
    exact Option.some_inj.mp (htt ▸ hgfind)
  have ht2err : t2.error = none := by
    rw [ht2g, hgb2, hb2err]
  constructor
  · rw [hg, ht2err, jmul_none_left]
  · rw [hw, ht2err, jmul_none_left, jmul_none_right, jadd_none_right]

/-- Counterexample to C4 as stated: with two output neurons and a
one-entry target vector, the code does compute an error for the second
output neuron (it is `NaN`), and the connection into it does not keep its
weight — both its gradient and its weight become `NaN`. -/
theorem C4_counterexample :
    ∃ p, jsBackward "sigmoid" (1 : ℚ) jNodes jConns [1] = some p ∧
      (p.1[2]?).map (fun n => n.error) = some none ∧
      (p.2[1]?).map (fun c => c.gradient) = some none ∧
      (p.2[1]?).map (fun c => c.weight) = some none ∧
      (jConns[1]?).map (fun c => c.weight) = some (some 1) :=
  ⟨_, rfl, by decide, by decide, by decide, by decide⟩

/-- Witness for the amended C4 on the concrete two-output network. -/
theorem C4_witness :
    ((jNodes.map (fun n => n.id)).Nodup ∧
      (∀ n ∈ jNodes, n.type = .output ↔ n.layer = jsMaxLayer jNodes) ∧
      (∀ c ∈ jConns, (∃ f ∈ jNodes, f.id = c.fromNodeId) ∧
        (∃ t ∈ jNodes, t.id = c.toNodeId)) ∧
      [(1 : ℚ)].length < (jNodes.filter (fun n => n.type == NodeType.output)).length) ∧
    (∃ ns2 cs2, jsBackward "sigmoid" (1 : ℚ) jNodes jConns [1] = some (ns2, cs2) ∧
      (∀ (j : Nat) (a : JSNode ℚ), jNodes[j]? = some a → a.type = .output →
        [(1 : ℚ)].length ≤ jsOutIdxAt jNodes j →
        ∃ b, ns2[j]? = some b ∧ b.error = none) ∧
      (∀ (q j : Nat) (c c2 : JSConn ℚ) (a : JSNode ℚ),
        jConns[q]? = some c → cs2[q]? = some c2 → jNodes[j]? = some a →
        a.type = .output → [(1 : ℚ)].length ≤ jsOutIdxAt jNodes j → c.toNodeId = a.id →
        c2.gradient = none ∧ c2.weight = none)) :=
  ⟨⟨by decide, by decide, by decide, by decide⟩,
    C4_nan_truncation "sigmoid" (1 : ℚ) jNodes jConns [1]
      (by decide) (by decide) (by decide) (by decide)⟩

end JSClaimsMain
